import Mathlib

/-!
Verification development for the sgr-deep-research agent core.

The definitions below are a shallow embedding of the Python sources under
`src/sgr_deep_research/`: the research context and agent loop
(`core/agents/base_agent.py`, `core/agents/sgr_agent.py`,
`core/agents/sgr_tools_agent.py`), the search tools
(`core/tools/research.py`, `services/tavily_search.py`), the structured
output schema compiler (`core/llm/schema_compiler.py`) and the Mistral
fallback staging (`core/llm/mistral_client.py`, `core/llm/utils.py`).

The module `sgr_deep_research/core/models.py` (defining `ResearchContext`,
`AgentStatesEnum`, `SourceData`, `SearchResult`) is not present in the
source tree; its fields and semantics are reconstructed from its callers
and, where explicitly noted, modelled from the specification.
-/

namespace SGR

/-- Lifecycle states of an agent.  Modelled from the spec: the module
`core/models.py` defining `AgentStatesEnum` is absent from the source tree;
the constructor set is reconstructed from the spec ("INITED → RESEARCHING ⇄
WAITING_FOR_CLARIFICATION → \x7bCOMPLETED | FAILED\x7d") and from the
callers in `base_agent.py`, which reference `RESEARCHING`,
`WAITING_FOR_CLARIFICATION`, `COMPLETED`, `FAILED` and `FINISH_STATES`. -/
inductive AgentStatesEnum where
  | inited
  | researching
  | waiting_for_clarification
  | completed
  | failed
deriving DecidableEq, Repr

/-- Modelled from the spec: `AgentStatesEnum.FINISH_STATES` (absent
`core/models.py`); the spec calls `COMPLETED`/`FAILED` the only terminal
states. -/
def FINISH_STATES : List AgentStatesEnum :=
  [AgentStatesEnum.completed, AgentStatesEnum.failed]

/-- The static tool types of the repository (`core/tools/base.py` and
`core/tools/research.py`). -/
inductive ToolT where
  | clarification
  | generatePlan
  | adaptPlan
  | agentCompletion
  | reasoning
  | webSearch
  | createReport
deriving DecidableEq, Repr

/-- `system_agent_tools` from `core/tools/base.py`. -/
def system_agent_tools : List ToolT :=
  [ToolT.clarification, ToolT.generatePlan, ToolT.adaptPlan,
   ToolT.agentCompletion, ToolT.reasoning]

/-- `research_agent_tools` from `core/tools/research.py`. -/
def research_agent_tools : List ToolT :=
  [ToolT.webSearch, ToolT.createReport]

/-- The toolkit of `SGRResearchAgent.__init__` (`sgr_agent.py` lines
52-57): system tools plus research tools with `ReasoningTool` removed. -/
def sgrToolkit : Finset ToolT :=
  {ToolT.clarification, ToolT.generatePlan, ToolT.adaptPlan,
   ToolT.agentCompletion, ToolT.webSearch, ToolT.createReport}

/-- `SGRResearchAgent._prepare_tools` (`sgr_agent.py` lines 60-76) as a
function of the budget counters read from the research context.  The
Python code starts from `set(self.toolkit)`, collapses to the literal set
`\x7bCreateReportTool, AgentCompletionTool\x7d` when
`iteration >= max_iterations`, then discards `ClarificationTool` when
`clarifications_used >= max_clarifications` and `WebSearchTool` when
`searches_used >= max_searches`. -/
def SGRResearchAgent_prepare_tools (iteration clarifications_used searches_used
    max_iterations max_clarifications max_searches : Nat)
    (toolkit : Finset ToolT) : Finset ToolT :=
  let tools := toolkit
  let tools := if max_iterations ≤ iteration then
    ({ToolT.createReport, ToolT.agentCompletion} : Finset ToolT) else tools
  let tools := if max_clarifications ≤ clarifications_used then
    tools \ {ToolT.clarification} else tools
  let tools := if max_searches ≤ searches_used then
    tools \ {ToolT.webSearch} else tools
  tools

/-- A Python value that is either a `set` or a `list` of tool classes; in
`SGRToolCallingResearchAgent._prepare_tools` (`sgr_tools_agent.py` lines
70-86) the variable `tools` starts as a set but is reassigned to a *list
literal* in the `iteration >= max_iterations` branch. -/
inductive PyToolColl where
  | pyset (s : Finset ToolT)
  | pylist (l : List ToolT)
deriving DecidableEq

/-- Python in-place difference `tools -= \x7b...\x7d`: defined on a `set`,
but a `TypeError` on a `list` (neither `list.__isub__` nor `list.__sub__`
exists and `set.__rsub__` rejects a list operand). -/
def pyISubSet (v : PyToolColl) (rhs : Finset ToolT) : Except String PyToolColl :=
  match v with
  | PyToolColl.pyset s => Except.ok (PyToolColl.pyset (s \ rhs))
  | PyToolColl.pylist _ =>
      Except.error "TypeError: unsupported operand type(s) for -=: 'list' and 'set'"

/-- `SGRToolCallingResearchAgent._prepare_tools` (`sgr_tools_agent.py`
lines 70-86).  Unlike the SGR variant, the `iteration >= max_iterations`
branch assigns a Python *list* (`tools = [CreateReportTool,
CompletionTool]`), after which the set subtractions raise `TypeError`. -/
def SGRToolCalling_prepare_tools (iteration clarifications_used searches_used
    max_iterations max_clarifications max_searches : Nat)
    (toolkit : Finset ToolT) : Except String PyToolColl := do
  let tools := PyToolColl.pyset toolkit
  let tools := if max_iterations ≤ iteration then
    PyToolColl.pylist [ToolT.createReport, ToolT.agentCompletion] else tools
  let tools ← if max_clarifications ≤ clarifications_used then
    pyISubSet tools {ToolT.clarification} else pure tools
  let tools ← if max_searches ≤ searches_used then
    pyISubSet tools {ToolT.webSearch} else pure tools
  return tools

/-- One retrieved reference (`SourceData`).  Modelled from the spec and
from `services/tavily_search.py` / `core/tools/research.py`: the fields
that the verified claims touch are the citation number and the URL (the
title/snippet/content fields are opaque payload and are omitted). -/
structure SourceData where
  number : Nat
  url : String
deriving DecidableEq, Repr

/-- One search invocation (`SearchResult`): query text and the ordered
sources produced. -/
structure SearchResult where
  query : String
  citations : List SourceData
deriving DecidableEq, Repr

/-- `TavilySearchService.rearrange_sources` (`services/tavily_search.py`
lines 17-21): `for i, source in enumerate(sources, starting_number):
source.number = i`. -/
def rearrange_sources (sources : List SourceData) (starting_number : Nat) :
    List SourceData :=
  (List.enumFrom starting_number sources).map (fun p => { p.2 with number := p.1 })

/-- One chat message of the running conversation (role and content). -/
structure Msg where
  role : String
  content : String
deriving DecidableEq, Repr

/-- The mutable state of one research session (`ResearchContext`).
Modelled from the spec: `core/models.py` is absent from the source tree;
fields are reconstructed from the callers in `base_agent.py`,
`research.py` and `endpoints.py`.  `sources` is the insertion-ordered URL
→ Source mapping; `clarification_received` is the one-shot asyncio event,
modelled as a boolean flag.  The spec fixes the initial lifecycle state to
`INITED`. -/
structure ResearchContext where
  iteration : Nat := 0
  searches_used : Nat := 0
  clarifications_used : Nat := 0
  state : AgentStatesEnum := AgentStatesEnum.inited
  sources : List (String × SourceData) := []
  searches : List SearchResult := []
  clarification_received : Bool := false
deriving DecidableEq, Repr

/-- Python ordered-`dict` assignment `d[k] = v`: replaces the value in
place when the key exists, appends otherwise. -/
def dictInsert (m : List (String × SourceData)) (k : String) (v : SourceData) :
    List (String × SourceData) :=
  if m.any (fun kv => kv.1 = k) then
    m.map (fun kv => if kv.1 = k then (k, v) else kv)
  else m ++ [(k, v)]

/-- `WebSearchTool.__call__` (`core/tools/research.py` lines 101-142)
restricted to its context mutations: renumber the returned sources
starting at `len(context.sources) + 1`, store each under its URL, append
the `SearchResult`, and increment `searches_used`.  The formatted result
string and logging are elided. -/
def WebSearchTool_call (context : ResearchContext) (query : String)
    (results : List SourceData) : ResearchContext :=
  let sources := rearrange_sources results (context.sources.length + 1)
  { context with
      sources := sources.foldl (fun m s => dictInsert m s.url s) context.sources,
      searches := context.searches ++ [{ query := query, citations := sources }],
      searches_used := context.searches_used + 1 }

/-- Run a session of sequential web searches: each element of `batches` is
the (query, raw result list) of one `WebSearchTool` execution. -/
def runSearches (context : ResearchContext)
    (batches : List (String × List SourceData)) : ResearchContext :=
  batches.foldl (fun ctx b => WebSearchTool_call ctx b.1 b.2) context

/-- The tool call selected by a reasoning decision, with the payload the
claims need: the completion tool carries its `status` literal
(`AgentCompletionTool.status`, `core/tools/base.py` line 94), the search
tool carries the query and the sources the search collaborator returns. -/
inductive ToolCall where
  | clarification
  | generatePlan
  | adaptPlan
  | agentCompletion (status : AgentStatesEnum)
  | webSearch (query : String) (results : List SourceData)
  | createReport
deriving DecidableEq, Repr

/-- `tool_name` class attribute: the lower-cased class name
(`BaseTool.__init_subclass__`, `core/tools/base.py` lines 32-35). -/
def ToolCall.tool_name : ToolCall → String
  | ToolCall.clarification => "clarificationtool"
  | ToolCall.generatePlan => "generateplantool"
  | ToolCall.adaptPlan => "adaptplantool"
  | ToolCall.agentCompletion _ => "agentcompletiontool"
  | ToolCall.webSearch _ _ => "websearchtool"
  | ToolCall.createReport => "createreporttool"

/-- Context mutation of each tool's `__call__`: `AgentCompletionTool` sets
`context.state = self.status`; `WebSearchTool` performs the search
bookkeeping; the plan/report/clarification tools only return text. -/
def ToolCall.execute : ToolCall → ResearchContext → ResearchContext
  | ToolCall.agentCompletion status, ctx => { ctx with state := status }
  | ToolCall.webSearch q results, ctx => WebSearchTool_call ctx q results
  | _, ctx => ctx

/-- A reasoning decision ("next step"): the `task_completed` flag and the
selected tool call (`ReasoningTool`/`NextStepToolStub` fields; the free
text fields are opaque and elided). -/
structure ReasoningDecision where
  task_completed : Bool
  tool : ToolCall
deriving DecidableEq, Repr

/-- An agent: its research context plus the running conversation
(`BaseAgent.__init__`). -/
structure AgentSt where
  context : ResearchContext := {}
  conversation : List Msg := []
deriving DecidableEq, Repr

/-- `BaseAgent.provide_clarification` (`base_agent.py` lines 75-81):
append the clarification as a user turn, increment `clarifications_used`,
set the clarification signal, and move the state back to `RESEARCHING`. -/
def provide_clarification (a : AgentSt) (clarifications : String) : AgentSt :=
  { a with
      conversation := a.conversation ++
        [{ role := "user", content := "CLARIFICATIONS: " ++ clarifications }],
      context := { a.context with
        clarifications_used := a.context.clarifications_used + 1,
        clarification_received := true,
        state := AgentStatesEnum.researching } }

/-- One iteration of `BaseAgent.execute` (`base_agent.py` lines 211-226)
with the SGR agent's phases: increment the iteration counter, compute the
permitted tool set (`_prepare_tools`), obtain the decision from the model
policy, record the assistant tool call and the tool result in the
conversation (`_select_action_phase` / `_action_phase`, `sgr_agent.py`
lines 100-132), execute the tool, and on a clarification tool move to
`WAITING_FOR_CLARIFICATION` and clear the signal. -/
def executeStep (max_iterations max_clarifications max_searches : Nat)
    (policy : Finset ToolT → ReasoningDecision) (a : AgentSt) : AgentSt :=
  let ctx := { a.context with iteration := a.context.iteration + 1 }
  let permitted := SGRResearchAgent_prepare_tools ctx.iteration
    ctx.clarifications_used ctx.searches_used
    max_iterations max_clarifications max_searches sgrToolkit
  let d := policy permitted
  let conv := a.conversation ++
    [{ role := "assistant", content := d.tool.tool_name },
     { role := "tool", content := d.tool.tool_name }]
  let ctx := d.tool.execute ctx
  if d.tool.tool_name = "clarificationtool" then
    { context := { ctx with
        state := AgentStatesEnum.waiting_for_clarification,
        clarification_received := false },
      conversation := conv }
  else
    { context := ctx, conversation := conv }

/-- The `while self._context.state not in AgentStatesEnum.FINISH_STATES`
loop of `BaseAgent.execute`, bounded by `fuel` iterations.  A transition
into `WAITING_FOR_CLARIFICATION` suspends the loop (the Python code blocks
on the clarification event at that point). -/
def executeLoop (max_iterations max_clarifications max_searches : Nat)
    (policy : Finset ToolT → ReasoningDecision) : Nat → AgentSt → AgentSt
  | 0, a => a
  | Nat.succ n, a =>
    if a.context.state ∈ FINISH_STATES then a
    else
      let a' := executeStep max_iterations max_clarifications max_searches policy a
      if a'.context.state = AgentStatesEnum.waiting_for_clarification then a'
      else executeLoop max_iterations max_clarifications max_searches policy n a'

/-- Start of `BaseAgent.execute` (`base_agent.py` lines 201-209): the
original user request is appended to the conversation.  Modelled from the
spec: the transition `INITED → RESEARCHING` "when execution starts" is
implemented by the absent `core/models.py`; it is taken from the spec's
state diagram. -/
def BaseAgent_execute_start (a : AgentSt) (task : String) : AgentSt :=
  { context := { a.context with state := AgentStatesEnum.researching },
    conversation := a.conversation ++
      [{ role := "user", content := "ORIGINAL USER REQUEST: '" ++ task ++ "'" }] }

/-- An OpenAI-compatible chat request as far as the clarification endpoint
reads it (`api/models.py` `ChatCompletionRequest`): the streaming flag and
the message list. -/
structure ChatRequest where
  stream : Bool
  messages : List Msg
deriving DecidableEq, Repr

/-- `extract_user_content_from_messages` (`api/endpoints.py` lines 75-79):
return the content of the last user message, raising `ValueError`
otherwise. -/
def extract_user_content_from_messages (messages : List Msg) :
    Except String String :=
  match messages.reverse.find? (fun m => m.role = "user") with
  | some m => Except.ok m.content
  | none => Except.error "User message not found in messages"

/-- Replace the stored agent under `agent_id` (mutation of the shared
object held in `agents_storage`). -/
def registryUpdate (agents_storage : List (String × AgentSt)) (agent_id : String)
    (a : AgentSt) : List (String × AgentSt) :=
  agents_storage.map (fun kv => if kv.1 = agent_id then (agent_id, a) else kv)

/-- The `provide_clarification` endpoint (`api/endpoints.py` lines
82-110).  Control flow of the source: reject non-streaming requests with
501; inside the `try` block extract the last user message (its
`ValueError` is answered with 400), look the agent up, and raise
`HTTPException(404)` when it is absent — that exception is caught by the
generic `except Exception` handler and re-raised as a 500 whose detail is
the string of the original error.  When the agent exists,
`agent.provide_clarification(...)` is invoked unconditionally (no check of
the lifecycle state) and the streaming response is returned with status
200. -/
def provide_clarification_endpoint (agents_storage : List (String × AgentSt))
    (agent_id : String) (request : ChatRequest) :
    (Except (Nat × String) Nat) × List (String × AgentSt) :=
  if request.stream = false then
    (Except.error (501, "Only streaming responses are supported. Set 'stream=true'"),
     agents_storage)
  else
    match extract_user_content_from_messages request.messages with
    | Except.error e => (Except.error (400, e), agents_storage)
    | Except.ok content =>
      match agents_storage.find? (fun kv => kv.1 = agent_id) with
      | none => (Except.error (500, "404: Agent not found"), agents_storage)
      | some kv =>
          (Except.ok 200,
           registryUpdate agents_storage agent_id (provide_clarification kv.2 content))

/-- The model policy of the forced-termination scenario: request another
web search whenever the permitted set still offers one, otherwise finish
through the completion tool. -/
def searchHungryPolicy : Finset ToolT → ReasoningDecision := fun permitted =>
  if ToolT.webSearch ∈ permitted then
    { task_completed := false, tool := ToolCall.webSearch "more" [] }
  else
    { task_completed := false, tool := ToolCall.agentCompletion AgentStatesEnum.completed }

/-! ### Structured-output schema compiler (`core/llm/schema_compiler.py`)

JSON documents are modelled by the mutual inductive `JVal`/`JArr`/`JObj`;
an object is an insertion-ordered list of key/value entries, as a Python
`dict`. -/

mutual
inductive JVal where
  | null
  | bool (b : Bool)
  | num (n : Int)
  | str (s : String)
  | arr (items : JArr)
  | obj (entries : JObj)
inductive JArr where
  | nil
  | cons (v : JVal) (rest : JArr)
inductive JObj where
  | nil
  | cons (k : String) (v : JVal) (rest : JObj)
end

deriving instance DecidableEq for JVal
deriving instance DecidableEq for JArr
deriving instance DecidableEq for JObj

def JArr.ofList : List JVal → JArr
  | [] => JArr.nil
  | v :: rest => JArr.cons v (JArr.ofList rest)

def JObj.ofList : List (String × JVal) → JObj
  | [] => JObj.nil
  | (k, v) :: rest => JObj.cons k v (JObj.ofList rest)

def JArr.toList : JArr → List JVal
  | JArr.nil => []
  | JArr.cons v rest => v :: rest.toList

def JObj.toList : JObj → List (String × JVal)
  | JObj.nil => []
  | JObj.cons k v rest => (k, v) :: rest.toList

/-- `dict.get(key)`: first entry with the given key. -/
def JObj.get : JObj → String → Option JVal
  | JObj.nil, _ => none
  | JObj.cons k v rest, key => if k = key then some v else rest.get key

def JObj.hasKey (o : JObj) (key : String) : Bool :=
  (o.get key).isSome

/-- `dict` assignment `d[key] = v`: replace in place when the key exists,
append otherwise. -/
def JObj.insert : JObj → String → JVal → JObj
  | JObj.nil, key, v => JObj.cons key v JObj.nil
  | JObj.cons k w rest, key, v =>
      if k = key then JObj.cons k v rest else JObj.cons k w (rest.insert key v)

/-- Remove the first entry with the given key (`dict.pop`). -/
def JObj.erase : JObj → String → JObj
  | JObj.nil, _ => JObj.nil
  | JObj.cons k w rest, key =>
      if k = key then rest else JObj.cons k w (rest.erase key)

/-- `rename_key` (`core/llm/utils.py` lines 60-65): when `old` is present
and `new` is absent, `data[new] = data.pop(old)` — the old entry is
removed and the new key is appended at the end. -/
def renameKey (data : JObj) (old new : String) : JObj :=
  match data.get old with
  | none => data
  | some v => if data.hasKey new then data else (data.erase old).insert new v

/-- Python truthiness of a JSON value (used by `value.get("kind") or
value.get("tool_name_discriminator")`). -/
def pyTruthy : JVal → Bool
  | JVal.null => false
  | JVal.bool b => b
  | JVal.num n => n ≠ 0
  | JVal.str s => s ≠ ""
  | JVal.arr JArr.nil => false
  | JVal.arr _ => true
  | JVal.obj JObj.nil => false
  | JVal.obj _ => true

mutual
/-- Python `repr` of a JSON-shaped value (containers render their
elements with `repr`). -/
def pyRepr : JVal → String
  | JVal.null => "None"
  | JVal.bool true => "True"
  | JVal.bool false => "False"
  | JVal.num n => toString n
  | JVal.str s => "\x27" ++ s ++ "\x27"
  | JVal.arr xs => "[" ++ pyReprArr xs ++ "]"
  | JVal.obj kvs => "\x7b" ++ pyReprObj kvs ++ "\x7d"
def pyReprArr : JArr → String
  | JArr.nil => ""
  | JArr.cons v JArr.nil => pyRepr v
  | JArr.cons v rest => pyRepr v ++ ", " ++ pyReprArr rest
def pyReprObj : JObj → String
  | JObj.nil => ""
  | JObj.cons k v JObj.nil => "\x27" ++ k ++ "\x27: " ++ pyRepr v
  | JObj.cons k v rest => "\x27" ++ k ++ "\x27: " ++ pyRepr v ++ ", " ++ pyReprObj rest
end

/-- Python `str` of a JSON-shaped value (`str(disc_default)` in
`SchemaCompiler._compile_model`): a string renders itself, any other
value renders as its `repr`. -/
def pyStr : JVal → String
  | JVal.str s => s
  | v => pyRepr v

instance {ε α : Type} [DecidableEq ε] [DecidableEq α] : DecidableEq (Except ε α) :=
  fun x y =>
  match x, y with
  | Except.ok a, Except.ok b =>
      if h : a = b then isTrue (congrArg Except.ok h)
      else isFalse (fun hh => h (Except.ok.inj hh))
  | Except.ok _, Except.error _ => isFalse (fun hh => Except.noConfusion hh)
  | Except.error _, Except.ok _ => isFalse (fun hh => Except.noConfusion hh)
  | Except.error e, Except.error f =>
      if h : e = f then isTrue (congrArg Except.error h)
      else isFalse (fun hh => h (Except.error.inj hh))

/-- A Python `Literal[...]` member: a string or an integer. -/
inductive PyLit where
  | s (v : String)
  | n (v : Int)
deriving DecidableEq, Repr

/-! The typed field annotations the compiler meets
(`SchemaCompiler._compile_annotation`): primitive scalars, enumerations,
literals, homogeneous lists, key-maps, tuples, nested models, unions and
`NoneType`.  `Annotated[...]` wrappers are unwrapped by the source before
any other case and are therefore not represented. -/
mutual
inductive Ann where
  | jstr
  | jint
  | jfloat
  | jbool
  | jenum (values : List String)
  | jlit (values : List PyLit)
  | jlist (item : Ann)
  | jmap (key value : Ann)
  | jtuple (items : AnnList)
  | jmodel (m : MModel)
  | junion (args : AnnList)
  | jnone
inductive AnnList where
  | nil
  | cons (a : Ann) (rest : AnnList)
inductive MModel where
  | mk (name : String) (fields : MFields)
inductive MFields where
  | nil
  | cons (f : MField) (rest : MFields)
/-- A Pydantic model field: name, annotation, `is_required()` flag
and default value.  Field aliases and descriptions do not occur on the
models of this repository and are elided (the description of the
synthesized discriminator property is the empty string). -/
inductive MField where
  | mk (name : String) (ann : Ann) (required : Bool) (default : Option JVal)
end

deriving instance DecidableEq for Ann
deriving instance DecidableEq for AnnList
deriving instance DecidableEq for MModel
deriving instance DecidableEq for MFields
deriving instance DecidableEq for MField

def AnnList.ofList : List Ann → AnnList
  | [] => AnnList.nil
  | a :: rest => AnnList.cons a (AnnList.ofList rest)

def AnnList.toList : AnnList → List Ann
  | AnnList.nil => []
  | AnnList.cons a rest => a :: rest.toList

def MFields.ofList : List MField → MFields
  | [] => MFields.nil
  | f :: rest => MFields.cons f (MFields.ofList rest)

def MFields.toList : MFields → List MField
  | MFields.nil => []
  | MFields.cons f rest => f :: rest.toList

def MField.name : MField → String
  | MField.mk n _ _ _ => n

def MField.ann : MField → Ann
  | MField.mk _ a _ _ => a

def MField.required : MField → Bool
  | MField.mk _ _ r _ => r

def MField.default : MField → Option JVal
  | MField.mk _ _ _ d => d

def MModel.name : MModel → String
  | MModel.mk n _ => n

def MModel.fields : MModel → MFields
  | MModel.mk _ fs => fs

/-- The error taxonomy of `core/llm/base.py`: `StructuredOutputError` and
`SchemaTooComplexError` are distinct exception classes (both derive from
`LLMError`). -/
inductive LLMErr where
  | structuredOutput (msg : String)
  | schemaTooComplex (msg : String)
deriving DecidableEq, Repr

def LLMErr.isSchemaTooComplex : LLMErr → Bool
  | LLMErr.schemaTooComplex _ => true
  | _ => false

/-- Union member filter `[arg for arg in get_args(annotation) if arg is
not type(None)]`. -/
def AnnList.filterNone : AnnList → AnnList
  | AnnList.nil => AnnList.nil
  | AnnList.cons Ann.jnone rest => rest.filterNone
  | AnnList.cons a rest => AnnList.cons a (rest.filterNone)

def AnnList.length : AnnList → Nat
  | AnnList.nil => 0
  | AnnList.cons _ rest => rest.length + 1

/-- `all(isinstance(arg, type) and issubclass(arg, BaseModel) for arg in
args)`. -/
def AnnList.allModels : AnnList → Bool
  | AnnList.nil => true
  | AnnList.cons (Ann.jmodel _) rest => rest.allModels
  | AnnList.cons _ _ => false

/-- The number of non-`NoneType` members (`len(args)` after the filter). -/
def AnnList.countNonNone : AnnList → Nat
  | AnnList.nil => 0
  | AnnList.cons Ann.jnone rest => rest.countNonNone
  | AnnList.cons _ rest => rest.countNonNone + 1

/-- `all(... issubclass(arg, BaseModel) ...)` over the non-`NoneType`
members. -/
def AnnList.allModelsNN : AnnList → Bool
  | AnnList.nil => true
  | AnnList.cons Ann.jnone rest => rest.allModelsNN
  | AnnList.cons (Ann.jmodel _) rest => rest.allModelsNN
  | AnnList.cons _ _ => false

def PyLit.toJVal : PyLit → JVal
  | PyLit.s v => JVal.str v
  | PyLit.n v => JVal.num v

/-- `str.endswith(suffix)`: modelled over the character lists so that it
evaluates by kernel reduction. -/
def strEndsWith (s suffix : String) : Bool :=
  suffix.data.isSuffixOf s.data

mutual

/-- `SchemaCompiler._compile_model` (`schema_compiler.py` lines 53-111):
walk the fields, treat a field whose name ends in `_discriminator` as the
literal tag declaration (its JSON name becomes `kind`, its stringified
default is the tag value), compile every other field's annotation, and
assemble `\x7btype, properties, additionalProperties\x7d` plus `required`
when non-empty.  Returns the schema together with the model's
`discriminator_value`.  `allow_additional_properties` is the
configuration default `False`. -/
def compile_model : MModel → Except LLMErr (JVal × Option String)
  | MModel.mk _ fields => do
      let (props, required, disc) ← compile_fields fields JObj.nil [] none
      let base := JObj.cons "type" (JVal.str "object")
        (JObj.cons "properties" (JVal.obj props)
          (JObj.cons "additionalProperties" (JVal.bool false) JObj.nil))
      let schema := if required.isEmpty then base
        else base.insert "required" (JVal.arr (JArr.ofList (required.map JVal.str)))
      return (JVal.obj schema, disc)

/-- The field loop of `_compile_model`, with the accumulated properties,
required names and discriminator value. -/
def compile_fields : MFields → JObj → List String → Option String →
    Except LLMErr (JObj × List String × Option String)
  | MFields.nil, props, required, disc => Except.ok (props, required, disc)
  | MFields.cons (MField.mk fname fann freq fdef) rest, props, required, disc =>
      if strEndsWith fname "_discriminator" then
        match fdef with
        | none => Except.error (LLMErr.schemaTooComplex
            ("Field \x27" ++ fname ++ "\x27 must have default discriminator value"))
        | some d =>
            let dv := pyStr d
            let props := props.insert "kind" (JVal.obj (JObj.ofList
              [("type", JVal.str "string"),
               ("enum", JVal.arr (JArr.ofList [JVal.str dv])),
               ("description", JVal.str "")]))
            compile_fields rest props (required ++ ["kind"]) (some dv)
      else do
        let fschema ← compile_ann fann
        let props := props.insert fname fschema
        let required := if freq then required ++ [fname] else required
        compile_fields rest props required disc

/-- `SchemaCompiler._compile_annotation` (`schema_compiler.py` lines
113-209), producing the JSON schema of one annotation. -/
def compile_ann : Ann → Except LLMErr JVal
  | Ann.jmodel m => do
      let (s, _) ← compile_model m
      return s
  | Ann.jenum values => Except.ok (JVal.obj (JObj.ofList
      [("type", JVal.str "string"),
       ("enum", JVal.arr (JArr.ofList (values.map JVal.str)))]))
  | Ann.jstr => Except.ok (JVal.obj (JObj.ofList [("type", JVal.str "string")]))
  | Ann.jint => Except.ok (JVal.obj (JObj.ofList [("type", JVal.str "integer")]))
  | Ann.jfloat => Except.ok (JVal.obj (JObj.ofList [("type", JVal.str "number")]))
  | Ann.jbool => Except.ok (JVal.obj (JObj.ofList [("type", JVal.str "boolean")]))
  | Ann.jnone => Except.error (LLMErr.schemaTooComplex
      "Unsupported field annotation: NoneType")
  | Ann.jlist item => do
      let s ← compile_ann item
      return JVal.obj (JObj.ofList [("type", JVal.str "array"), ("items", s)])
  | Ann.jmap _ _ => Except.error (LLMErr.schemaTooComplex
      "Mapping fields are not supported in structured outputs")
  | Ann.jlit values =>
      match values with
      | [] => Except.error (LLMErr.schemaTooComplex "Empty Literal union")
      | sample :: _ => Except.ok (JVal.obj (JObj.ofList
          [("enum", JVal.arr (JArr.ofList (values.map PyLit.toJVal))),
           ("type", JVal.str (match sample with
             | PyLit.s _ => "string"
             | PyLit.n _ => "number"))]))
  | Ann.jtuple _ => Except.error (LLMErr.schemaTooComplex
      "Tuple types are not supported")
  | Ann.junion args => compile_union args

/-- The union branch of `_compile_annotation`: `NoneType` members are
filtered out; an empty result is an error, a single survivor is compiled
on its own, and otherwise all survivors must be models whose compiled
discriminator values are all truthy, yielding the `oneOf` schema with the
`discriminator` pointer. -/
def compile_union : AnnList → Except LLMErr JVal
  | AnnList.nil => Except.error (LLMErr.schemaTooComplex
      "Union must include at least one non-None member")
  | AnnList.cons Ann.jnone rest => compile_union rest
  | AnnList.cons a rest =>
      if rest.countNonNone = 0 then compile_ann a
      else if (AnnList.cons a rest).allModelsNN then do
        let headp ← (match a with
          | Ann.jmodel m => compile_model m
          | _ => Except.error (LLMErr.schemaTooComplex
              "Only unions of BaseModel are supported"))
        let restps ← compile_union_variants rest
        let variants := headp :: restps
        if variants.all (fun p => match p.2 with
            | some t => t ≠ ""
            | none => false) then
          Except.ok (JVal.obj (JObj.ofList
            [("oneOf", JVal.arr (JArr.ofList (variants.map Prod.fst))),
             ("discriminator", JVal.obj (JObj.ofList
               [("propertyName", JVal.str "kind")]))]))
        else Except.error (LLMErr.schemaTooComplex
          "Discriminator value required for all union variants")
      else Except.error (LLMErr.schemaTooComplex
        "Only unions of BaseModel are supported")

/-- `[self._compile_model(arg) for arg in args]` of the union branch
(`NoneType` members were already filtered by the source at this point). -/
def compile_union_variants : AnnList → Except LLMErr (List (JVal × Option String))
  | AnnList.nil => Except.ok []
  | AnnList.cons Ann.jnone rest => compile_union_variants rest
  | AnnList.cons (Ann.jmodel m) rest => do
      let p ← compile_model m
      let ps ← compile_union_variants rest
      return p :: ps
  | AnnList.cons _ _ => Except.error (LLMErr.schemaTooComplex
      "Only unions of BaseModel are supported")

end

/-! Node counts of annotations and JSON values: the fuel bounds of the
transform/validation functions below (string contents do not count). -/

mutual
def annSize : Ann → Nat
  | Ann.jlist item => annSize item + 1
  | Ann.jmap k v => annSize k + annSize v + 1
  | Ann.jtuple items => annListSize items + 1
  | Ann.jmodel m => modelSize m + 1
  | Ann.junion args => annListSize args + 1
  | _ => 1
def annListSize : AnnList → Nat
  | AnnList.nil => 1
  | AnnList.cons a rest => annSize a + annListSize rest + 1
def modelSize : MModel → Nat
  | MModel.mk _ fields => fieldsSize fields + 1
def fieldsSize : MFields → Nat
  | MFields.nil => 1
  | MFields.cons (MField.mk _ fann _ _) rest => annSize fann + fieldsSize rest + 1
end

mutual
def jvalSize : JVal → Nat
  | JVal.arr xs => jarrSize xs + 1
  | JVal.obj kvs => jobjSize kvs + 1
  | _ => 1
def jarrSize : JArr → Nat
  | JArr.nil => 1
  | JArr.cons v rest => jvalSize v + jarrSize rest + 1
def jobjSize : JObj → Nat
  | JObj.nil => 1
  | JObj.cons _ v rest => jvalSize v + jobjSize rest + 1
end

/-! Whether `_compile_annotation` returns a transform closure (`transform
is not None`): nested models, lists and unions carry one; a
single-survivor union inherits the survivor's. -/
mutual
def hasTransform : Ann → Bool
  | Ann.jmodel _ => true
  | Ann.jlist _ => true
  | Ann.junion args => hasTransformUnion args
  | _ => false
def hasTransformUnion : AnnList → Bool
  | AnnList.nil => false
  | AnnList.cons Ann.jnone rest => hasTransformUnion rest
  | AnnList.cons a rest => if rest.countNonNone = 0 then hasTransform a else true
end

/-- The `discriminator_value` a successful `_compile_model` reports: the
stringified default of the *last* field whose name ends in
`_discriminator`. -/
def discValueFields : MFields → Option String
  | MFields.nil => none
  | MFields.cons (MField.mk fname _ _ fdef) rest =>
      match discValueFields rest with
      | some t => some t
      | none =>
          if strEndsWith fname "_discriminator" then fdef.map pyStr else none

def modelDiscValue (m : MModel) : Option String := discValueFields m.fields

/-- The renames mapping of `transform_payload`: `renames["kind"]` is the
name of the *last* discriminator field. -/
def lastDiscFieldName : MFields → Option String
  | MFields.nil => none
  | MFields.cons (MField.mk fname _ _ _) rest =>
      match lastDiscFieldName rest with
      | some n => some n
      | none => if strEndsWith fname "_discriminator" then some fname else none

/-- `field_transforms.get(json_name)`: the annotation of the last
non-discriminator field with that name whose compiled transform is not
`None`. -/
def fieldTransformAnn : MFields → String → Option Ann
  | MFields.nil, _ => none
  | MFields.cons (MField.mk fname fann _ _) rest, k =>
      match fieldTransformAnn rest k with
      | some a => some a
      | none =>
          if strEndsWith fname "_discriminator" then none
          else if fname = k && hasTransform fann then some fann else none

/-- The model members of a union annotation (`NoneType` members
filtered). -/
def unionVariantsD : AnnList → List MModel
  | AnnList.nil => []
  | AnnList.cons (Ann.jmodel m) rest => m :: unionVariantsD rest
  | AnnList.cons _ rest => unionVariantsD rest

/-- `discriminator_map[lookup]`: the dict comprehension keeps the *last*
variant for a repeated discriminator value. -/
def lookupVariantByTag (ms : List MModel) (tag : String) : Option MModel :=
  match ms with
  | [] => none
  | m :: rest =>
      match lookupVariantByTag rest tag with
      | some r => some r
      | none => if modelDiscValue m = some tag then some m else none

/-! The transform closures of the compiled schema
(`transform_payload` in `_compile_model` and the `transform` /
`transform_list` / `transform_union` closures in `_compile_annotation`),
as fuel-indexed functions; `transform_model` / `transform_ann` below
instantiate the fuel at a sufficient bound. -/

mutual
def transformAnnF : Nat → Ann → JVal → Except String JVal
  | 0, _, _ => Except.error "recursion limit exceeded"
  | Nat.succ fuel, Ann.jmodel m, v =>
      (match v with
       | JVal.obj _ => transformModelF fuel m v
       | _ => Except.error "TypeError: Expected mapping for nested model")
  | Nat.succ fuel, Ann.jlist item, v =>
      (match v with
       | JVal.arr xs =>
           if hasTransform item then do
             let xs2 ← transformArrF fuel item xs
             return JVal.arr xs2
           else Except.ok (JVal.arr xs)
       | _ => Except.error "TypeError: Expected list for sequence field")
  | Nat.succ fuel, Ann.junion args, v => transformUnionF fuel args v
  | Nat.succ _, _, v => Except.ok v

def transformArrF : Nat → Ann → JArr → Except String JArr
  | 0, _, _ => Except.error "recursion limit exceeded"
  | Nat.succ _, _, JArr.nil => Except.ok JArr.nil
  | Nat.succ fuel, item, JArr.cons x rest => do
      let x2 ← transformAnnF fuel item x
      let rest2 ← transformArrF fuel item rest
      return JArr.cons x2 rest2

def transformUnionF : Nat → AnnList → JVal → Except String JVal
  | 0, _, _ => Except.error "recursion limit exceeded"
  | Nat.succ _, AnnList.nil, _ =>
      Except.error "ValueError: Union payload missing \x27kind\x27 discriminator"
  | Nat.succ fuel, AnnList.cons Ann.jnone rest, v => transformUnionF fuel rest v
  | Nat.succ fuel, AnnList.cons a rest, v =>
      if rest.countNonNone = 0 then transformAnnF fuel a v
      else
        match v with
        | JVal.obj kvs =>
            let lookup := (match kvs.get "kind" with
              | some x => if pyTruthy x then some x else kvs.get "tool_name_discriminator"
              | none => kvs.get "tool_name_discriminator")
            (match lookup with
             | none => Except.error
                 "ValueError: Union payload missing \x27kind\x27 discriminator"
             | some (JVal.str tag) =>
                 (match lookupVariantByTag (unionVariantsD (AnnList.cons a rest)) tag with
                  | none => Except.error
                      ("ValueError: Unsupported discriminator value \x27" ++ tag ++ "\x27")
                  | some variant =>
                      transformModelF fuel variant
                        (JVal.obj (renameKey kvs "kind" "tool_name_discriminator")))
             | some _ => Except.error "ValueError: Unsupported discriminator value")
        | _ => Except.error "TypeError: Expected mapping for union value"

def transformModelF : Nat → MModel → JVal → Except String JVal
  | 0, _, _ => Except.error "recursion limit exceeded"
  | Nat.succ fuel, m, v =>
      match v with
      | JVal.obj kvs => do
          let converted ← transformEntriesF fuel m kvs JObj.nil
          return JVal.obj converted
      | _ => Except.error "TypeError: Structured response must be a mapping"

def transformEntriesF : Nat → MModel → JObj → JObj → Except String JObj
  | 0, _, _, _ => Except.error "recursion limit exceeded"
  | Nat.succ _, _, JObj.nil, acc => Except.ok acc
  | Nat.succ fuel, m, JObj.cons k v rest, acc => do
      let target := (match (if k = "kind" then lastDiscFieldName m.fields else none) with
        | some t => t
        | none => k)
      let v2 ← (match fieldTransformAnn m.fields k with
        | some a2 => transformAnnF fuel a2 v
        | none => Except.ok v)
      transformEntriesF fuel m rest (acc.insert target v2)
end

/-- The transform attached by `_compile_annotation` (identity when the
compiled transform is `None`). -/
def transform_ann (a : Ann) (v : JVal) : Except String JVal :=
  if hasTransform a then transformAnnF (annSize a + jvalSize v + 1) a v
  else Except.ok v

/-- `CompiledSchema.transform` of a compiled model (`transform_payload`). -/
def transform_model (m : MModel) (v : JVal) : Except String JVal :=
  transformModelF (modelSize m + jvalSize v + 1) m v

/-! Pydantic validation of a dumped payload against a model, as the
fuel-indexed boolean `checkModelF` below: the object must carry exactly
the model's fields in declaration order, a discriminator field must equal
its literal default, and every other field value must be of the field's
annotation type.  `model_validate` on such a payload returns the typed
object whose dump is the payload itself. -/

mutual
def checkAnnF : Nat → Ann → JVal → Bool
  | 0, _, _ => false
  | Nat.succ fuel, a, v =>
      match a, v with
      | Ann.jstr, JVal.str _ => true
      | Ann.jint, JVal.num _ => true
      | Ann.jfloat, JVal.num _ => true
      | Ann.jbool, JVal.bool _ => true
      | Ann.jenum vals, JVal.str s => vals.contains s
      | Ann.jlit vals, JVal.str s => vals.contains (PyLit.s s)
      | Ann.jlit vals, JVal.num n => vals.contains (PyLit.n n)
      | Ann.jlist item, JVal.arr xs => checkArrF fuel item xs
      | Ann.jmodel m, w => checkModelF fuel m w
      | Ann.junion args, w => checkUnionAnyF fuel args w
      | Ann.jnone, JVal.null => true
      | _, _ => false
def checkArrF : Nat → Ann → JArr → Bool
  | 0, _, _ => false
  | Nat.succ _, _, JArr.nil => true
  | Nat.succ fuel, item, JArr.cons x rest =>
      checkAnnF fuel item x && checkArrF fuel item rest
def checkUnionAnyF : Nat → AnnList → JVal → Bool
  | 0, _, _ => false
  | Nat.succ _, AnnList.nil, _ => false
  | Nat.succ fuel, AnnList.cons a rest, v =>
      checkAnnF fuel a v || checkUnionAnyF fuel rest v
def checkModelF : Nat → MModel → JVal → Bool
  | 0, _, _ => false
  | Nat.succ fuel, m, JVal.obj kvs => checkFieldsF fuel m.fields kvs
  | Nat.succ _, _, _ => false
def checkFieldsF : Nat → MFields → JObj → Bool
  | 0, _, _ => false
  | Nat.succ _, MFields.nil, JObj.nil => true
  | Nat.succ fuel, MFields.cons (MField.mk fname fann _ fdef) fs, JObj.cons k v rest =>
      (k = fname : Bool) &&
      (if strEndsWith fname "_discriminator" then (fdef = some v : Bool)
       else checkAnnF fuel fann v) &&
      checkFieldsF fuel fs rest
  | Nat.succ _, _, _ => false
end

/-- A JSON value is a valid dump of the model. -/
def checkModelDump (m : MModel) (v : JVal) : Bool :=
  checkModelF (modelSize m + jvalSize v + 1) m v

/-- `response_model.model_validate(structured)` on a payload: succeeds
exactly on valid dumps and returns the typed object (identified with its
dump). -/
def model_validate (m : MModel) (v : JVal) : Except String JVal :=
  if checkModelDump m v then Except.ok v
  else Except.error "ValidationError"

/-! The concrete tool models of the repository (`core/tools/base.py`,
`core/tools/research.py`), in their discriminant form as produced by
`NextStepToolsBuilder._create_discriminant_tool`: the base tool fields
followed by `tool_name_discriminator: Literal[tool_name] = tool_name`. -/

def strField (n : String) : MField := MField.mk n Ann.jstr true none

def listStrField (n : String) : MField :=
  MField.mk n (Ann.jlist Ann.jstr) true none

def discFieldOf (tool_name : String) : MField :=
  MField.mk "tool_name_discriminator" (Ann.jlit [PyLit.s tool_name]) false
    (some (JVal.str tool_name))

def ClarificationToolD : MModel :=
  MModel.mk "ClarificationToolWithDiscriminant" (MFields.ofList
    [strField "reasoning", listStrField "unclear_terms",
     listStrField "assumptions", listStrField "questions",
     discFieldOf "clarificationtool"])

def GeneratePlanToolD : MModel :=
  MModel.mk "GeneratePlanToolWithDiscriminant" (MFields.ofList
    [strField "reasoning", strField "research_goal",
     listStrField "planned_steps", listStrField "search_strategies",
     discFieldOf "generateplantool"])

def AdaptPlanToolD : MModel :=
  MModel.mk "AdaptPlanToolWithDiscriminant" (MFields.ofList
    [strField "reasoning", strField "original_goal", strField "new_goal",
     listStrField "plan_changes", listStrField "next_steps",
     discFieldOf "adaptplantool"])

def AgentCompletionToolD : MModel :=
  MModel.mk "AgentCompletionToolWithDiscriminant" (MFields.ofList
    [strField "reasoning", listStrField "completed_steps",
     MField.mk "status" (Ann.jlit [PyLit.s "completed", PyLit.s "failed"]) true none,
     discFieldOf "agentcompletiontool"])

def WebSearchToolD : MModel :=
  MModel.mk "WebSearchToolWithDiscriminant" (MFields.ofList
    [strField "reasoning", strField "query",
     MField.mk "max_results" Ann.jint false (some (JVal.num 10)),
     MField.mk "scrape_content" Ann.jbool false (some (JVal.bool false)),
     discFieldOf "websearchtool"])

def CreateReportToolD : MModel :=
  MModel.mk "CreateReportToolWithDiscriminant" (MFields.ofList
    [strField "reasoning", strField "title",
     strField "user_request_language_reference", strField "content",
     MField.mk "confidence"
       (Ann.jlit [PyLit.s "high", PyLit.s "medium", PyLit.s "low"]) true none,
     discFieldOf "createreporttool"])

/-- The discriminant tool models of the SGR agent's toolkit (the
`ReasoningTool` is removed by `SGRResearchAgent.__init__`). -/
def allDiscToolModels : List MModel :=
  [ClarificationToolD, GeneratePlanToolD, AdaptPlanToolD,
   AgentCompletionToolD, WebSearchToolD, CreateReportToolD]

def unionOfModels (ms : List MModel) : Ann :=
  Ann.junion (AnnList.ofList (ms.map Ann.jmodel))

/-- `NextStepToolsBuilder.build_NextStepTools` over a tool list of two or
more tools: the `ReasoningTool` base fields (`NextStepToolStub`) plus the
`function` field holding the discriminated union. -/
def NextStepToolsModel (ms : List MModel) : MModel :=
  MModel.mk "NextStepTools" (MFields.ofList
    [listStrField "reasoning_steps", strField "current_situation",
     strField "plan_status",
     MField.mk "enough_data" Ann.jbool false (some (JVal.bool false)),
     listStrField "remaining_steps",
     MField.mk "task_completed" Ann.jbool true none,
     MField.mk "function" (unionOfModels ms) true none])

/-- The schema a model compiles to (`JVal.null` when compilation fails —
used only where success is proved). -/
def modelSchemaOf (m : MModel) : JVal :=
  match compile_model m with
  | Except.ok p => p.1
  | Except.error _ => JVal.null

/-- The discriminator tag a model compiles to. -/
def modelTagOf (m : MModel) : String :=
  match compile_model m with
  | Except.ok (_, some t) => t
  | _ => ""

/-- Navigate to `schema["properties"]["kind"]` of a branch schema. -/
def kindPropertyOf (schema : JVal) : Option JVal :=
  match schema with
  | JVal.obj kvs =>
      match kvs.get "properties" with
      | some (JVal.obj props) => props.get "kind"
      | _ => none
  | _ => none

/-- The head-variant compilation of the union branch (`issubclass(arg,
BaseModel)` members compile, anything else is the union error). -/
def unionHeadCompile (a : Ann) : Except LLMErr (JVal × Option String) :=
  match a with
  | Ann.jmodel m => compile_model m
  | _ => Except.error (LLMErr.schemaTooComplex
      "Only unions of BaseModel are supported")

/-- Claim C7 counterexample input: a model whose only field is an
arbitrary key-map, but whose name ends in `_discriminator` and which has
the (dict) default `\x7b\x7d`. -/
def weirdMapModel : MModel :=
  MModel.mk "WeirdModel" (MFields.ofList
    [MField.mk "payload_discriminator" (Ann.jmap Ann.jstr Ann.jstr) false
      (some (JVal.obj JObj.nil))])

/-- A model with an ordinary (non-discriminator-named) key-map field. -/
def mapFieldModel : MModel :=
  MModel.mk "MapFieldModel" (MFields.ofList
    [MField.mk "payload" (Ann.jmap Ann.jstr Ann.jstr) true none])

/-- A compilation result that is either a success or a
`SchemaTooComplexError` — never a `StructuredOutputError`. -/
def okOrSTC {α : Type} : Except LLMErr α → Prop
  | Except.ok _ => True
  | Except.error (LLMErr.schemaTooComplex _) => True
  | Except.error (LLMErr.structuredOutput _) => False

/-- A union member that is a record carrying a truthy literal
discriminator value. -/
def truthyDisc (m : MModel) : Prop :=
  match modelDiscValue m with
  | some t => t ≠ ""
  | none => False

/-- The unsupported constructs of claim C7: an arbitrary key-map, a
heterogeneous tuple, or a union (two or more non-`None` members) whose
members are not all records carrying a literal discriminator. -/
def offendingAnn : Ann → Prop
  | Ann.jmap _ _ => True
  | Ann.jtuple _ => True
  | Ann.junion args =>
      2 ≤ args.countNonNone ∧
      (args.allModelsNN = false ∨ ∃ m ∈ unionVariantsD args, ¬ truthyDisc m)
  | _ => False

def objKeys : JObj → List String
  | JObj.nil => []
  | JObj.cons k _ rest => k :: objKeys rest

def JObj.appendO : JObj → JObj → JObj
  | JObj.nil, o => o
  | JObj.cons k v rest, o => JObj.cons k v (rest.appendO o)

def fieldNames : MFields → List String
  | MFields.nil => []
  | MFields.cons (MField.mk fname _ _ _) rest => fname :: fieldNames rest

/-! The well-behaved class of models over which the transform closures are
the identity on valid dumps: distinct field names, no field literally
named `kind`, discriminator fields named exactly
`tool_name_discriminator` with a non-empty string default, unions of two
or more such models with pairwise-distinct tags, and no key-map / tuple /
`NoneType` fields.  All tool models of this repository are of this class
(established by `decide`). -/

mutual
def goodAnn : Ann → Bool
  | Ann.jlist item => goodAnn item
  | Ann.jmodel m => goodModel m
  | Ann.junion args =>
      goodUnionArgs args && decide (2 ≤ args.countNonNone) &&
      decide (((unionVariantsD args).map modelDiscValue).Nodup)
  | Ann.jmap _ _ => false
  | Ann.jtuple _ => false
  | Ann.jnone => false
  | _ => true
def goodUnionArgs : AnnList → Bool
  | AnnList.nil => true
  | AnnList.cons (Ann.jmodel m) rest =>
      goodModel m &&
      (match modelDiscValue m with
        | some t => decide (t ≠ "")
        | none => false) &&
      goodUnionArgs rest
  | AnnList.cons _ _ => false
def goodModel : MModel → Bool
  | MModel.mk _ fields =>
      goodFields fields && decide ((fieldNames fields).Nodup) &&
      decide ("kind" ∉ fieldNames fields)
def goodFields : MFields → Bool
  | MFields.nil => true
  | MFields.cons (MField.mk fname fann _ fdef) rest =>
      (if strEndsWith fname "_discriminator" then
        decide (fname = "tool_name_discriminator") &&
        (match fdef with
          | some (JVal.str t) => decide (t ≠ "")
          | _ => false)
      else goodAnn fann) && goodFields rest
end

/-! JSON text layer: serialization (`json.dumps` with compact separators)
and parsing (`json.loads`) over the value grammar of this repository:
null, booleans, integers, strings whose characters need no escaping,
arrays and objects.  The parser is a fuel-indexed recursive-descent
reader; `json_loads` instantiates the fuel at the input length, which the
length lemmas below show is always sufficient for serialized values. -/

def lbrace : Char := Char.ofNat 123

def rbrace : Char := Char.ofNat 125

def isJsonWS (c : Char) : Bool :=
  c = ' ' || c = '\t' || c = '\n' || c = '\r'

/-- `str.strip` of leading whitespace / the tokenizer whitespace skip. -/
def skipWS : List Char → List Char
  | [] => []
  | c :: cs => if isJsonWS c then skipWS cs else c :: cs

/-- A character that serializes into a JSON string literal verbatim. -/
def wfChar (c : Char) : Bool := !(c = '"' : Bool) && !(c = '\\' : Bool)

def wfStr (s : String) : Bool := s.data.all wfChar

mutual
/-- Values whose strings (keys included) need no escape sequences. -/
def wfJVal : JVal → Bool
  | JVal.str s => wfStr s
  | JVal.arr xs => wfJArr xs
  | JVal.obj kvs => wfJObj kvs
  | _ => true
def wfJArr : JArr → Bool
  | JArr.nil => true
  | JArr.cons v rest => wfJVal v && wfJArr rest
def wfJObj : JObj → Bool
  | JObj.nil => true
  | JObj.cons k v rest => wfStr k && wfJVal v && wfJObj rest
end

def digitChar (n : Nat) : Char := Char.ofNat (48 + n)

/-- Decimal digit emission, most significant first (fuel-indexed). -/
def natDigitsGo : Nat → Nat → List Char
  | 0, _ => []
  | Nat.succ fuel, n =>
      if n < 10 then [digitChar n]
      else natDigitsGo fuel (n / 10) ++ [digitChar (n % 10)]

def natToChars (n : Nat) : List Char := natDigitsGo (n + 1) n

def intToChars (i : Int) : List Char :=
  if i < 0 then '-' :: natToChars (-i).toNat else natToChars i.toNat

mutual
/-- `json.dumps` with separators `(",", ":")`. -/
def printJVal : JVal → List Char
  | JVal.null => ['n', 'u', 'l', 'l']
  | JVal.bool true => ['t', 'r', 'u', 'e']
  | JVal.bool false => ['f', 'a', 'l', 's', 'e']
  | JVal.num n => intToChars n
  | JVal.str s => '"' :: s.data ++ ['"']
  | JVal.arr xs => '[' :: printJArr xs ++ [']']
  | JVal.obj kvs => lbrace :: printJObj kvs ++ [rbrace]
def printJArr : JArr → List Char
  | JArr.nil => []
  | JArr.cons v JArr.nil => printJVal v
  | JArr.cons v rest => printJVal v ++ ',' :: printJArr rest
def printJObj : JObj → List Char
  | JObj.nil => []
  | JObj.cons k v JObj.nil => '"' :: k.data ++ '"' :: ':' :: printJVal v
  | JObj.cons k v rest =>
      '"' :: k.data ++ '"' :: ':' :: printJVal v ++ ',' :: printJObj rest
end

def json_dumps (v : JVal) : String := String.mk (printJVal v)

/-- String literal body: characters up to the closing quote (no escapes in
the grammar fragment). -/
def parseStrChars : List Char → Option (List Char × List Char)
  | [] => none
  | c :: cs =>
      if c = '"' then some ([], cs)
      else if c = '\\' then none
      else
        match parseStrChars cs with
        | some (s, rest) => some (c :: s, rest)
        | none => none

def takeDigits : List Char → List Char × List Char
  | [] => ([], [])
  | c :: cs =>
      if c.isDigit then (c :: (takeDigits cs).1, (takeDigits cs).2)
      else ([], c :: cs)

def digitsToNat (acc : Nat) : List Char → Nat
  | [] => acc
  | c :: cs => digitsToNat (acc * 10 + (c.toNat - 48)) cs

mutual
def parseVal : Nat → List Char → Option (JVal × List Char)
  | 0, _ => none
  | Nat.succ fuel, cs =>
      match skipWS cs with
      | [] => none
      | c :: cs2 =>
          if c.isDigit then
            some (JVal.num (digitsToNat 0 (takeDigits (c :: cs2)).1 : Int),
              (takeDigits (c :: cs2)).2)
          else if c = '-' then
            if (takeDigits cs2).1.isEmpty then none
            else some (JVal.num (-(digitsToNat 0 (takeDigits cs2).1 : Int)),
              (takeDigits cs2).2)
          else if c = '"' then
            match parseStrChars cs2 with
            | some (scs, rest) => some (JVal.str (String.mk scs), rest)
            | none => none
          else if c = '[' then
            match skipWS cs2 with
            | [] => none
            | r :: rest =>
                if r = ']' then some (JVal.arr JArr.nil, rest)
                else
                  match parseArrItems fuel (r :: rest) with
                  | some (xs, rest2) => some (JVal.arr xs, rest2)
                  | none => none
          else if c = lbrace then
            match skipWS cs2 with
            | [] => none
            | r :: rest =>
                if r = rbrace then some (JVal.obj JObj.nil, rest)
                else
                  match parseObjItems fuel (r :: rest) with
                  | some (kvs, rest2) => some (JVal.obj kvs, rest2)
                  | none => none
          else if c = 'n' then
            match cs2 with
            | 'u' :: 'l' :: 'l' :: rest => some (JVal.null, rest)
            | _ => none
          else if c = 't' then
            match cs2 with
            | 'r' :: 'u' :: 'e' :: rest => some (JVal.bool true, rest)
            | _ => none
          else if c = 'f' then
            match cs2 with
            | 'a' :: 'l' :: 's' :: 'e' :: rest => some (JVal.bool false, rest)
            | _ => none
          else none

def parseArrItems : Nat → List Char → Option (JArr × List Char)
  | 0, _ => none
  | Nat.succ fuel, cs =>
      match parseVal fuel cs with
      | none => none
      | some (v, rest) =>
          match skipWS rest with
          | [] => none
          | r :: rest2 =>
              if r = ',' then
                match parseArrItems fuel rest2 with
                | some (xs, rest3) => some (JArr.cons v xs, rest3)
                | none => none
              else if r = ']' then some (JArr.cons v JArr.nil, rest2)
              else none

def parseObjItems : Nat → List Char → Option (JObj × List Char)
  | 0, _ => none
  | Nat.succ fuel, cs =>
      match skipWS cs with
      | [] => none
      | c :: cs2 =>
          if c = '"' then
            match parseStrChars cs2 with
            | none => none
            | some (kcs, rest) =>
                match skipWS rest with
                | [] => none
                | r :: rest2 =>
                    if r = ':' then
                      match parseVal fuel rest2 with
                      | none => none
                      | some (v, rest3) =>
                          match skipWS rest3 with
                          | [] => none
                          | r2 :: rest4 =>
                              if r2 = ',' then
                                match parseObjItems fuel rest4 with
                                | some (kvs, rest5) =>
                                    some (JObj.cons (String.mk kcs) v kvs, rest5)
                                | none => none
                              else if r2 = rbrace then
                                some (JObj.cons (String.mk kcs) v JObj.nil, rest4)
                              else none
                    else none
          else none
end

/-- `json.loads`: parse one value, reject trailing non-whitespace
("Extra data"), reject unparsable input ("Expecting value"). -/
def json_loads (s : String) : Except String JVal :=
  match parseVal (s.data.length + 1) s.data with
  | some (v, rest) =>
      if (skipWS rest).isEmpty then Except.ok v
      else Except.error "Extra data"
  | none => Except.error "Expecting value"

mutual
/-- The parser fuel needed to read back a serialized value. -/
def pvNeed : JVal → Nat
  | JVal.arr xs => paNeed xs + 1
  | JVal.obj kvs => poNeed kvs + 1
  | _ => 1
def paNeed : JArr → Nat
  | JArr.nil => 1
  | JArr.cons v rest => max (pvNeed v) (paNeed rest) + 1
def poNeed : JObj → Nat
  | JObj.nil => 1
  | JObj.cons _ v rest => max (pvNeed v) (poNeed rest) + 1
end

/-- A value head never starts with whitespace, `]` or the closing brace. -/
def goodHead (c : Char) : Bool :=
  !(isJsonWS c) && !(c = ']' : Bool) && !(c = rbrace : Bool)

/-- A concrete web-search tool call dump (fields in declaration order). -/
def c4PayloadFn : JObj := JObj.ofList
  [("reasoning", JVal.str "need sources"), ("query", JVal.str "sgr research"),
   ("max_results", JVal.num 10), ("scrape_content", JVal.bool false),
   ("tool_name_discriminator", JVal.str "websearchtool")]

/-- A concrete `NextStepTools` payload whose `function` is the web-search
tool call above. -/
def c4Payload : JObj := JObj.ofList
  [("reasoning_steps", JVal.arr (JArr.cons (JVal.str "plan") JArr.nil)),
   ("current_situation", JVal.str "started"),
   ("plan_status", JVal.str "active"),
   ("enough_data", JVal.bool false),
   ("remaining_steps", JVal.arr (JArr.cons (JVal.str "search") JArr.nil)),
   ("task_completed", JVal.bool false),
   ("function", JVal.obj c4PayloadFn)]

/-! The Mistral client's structured-output staging
(`core/llm/mistral_client.py`, `_complete_structured` lines 167-228 and
`_resolve_stage_order` lines 230-236), over an environment recording the
outcome of each provider call. -/

def LLMErr.msg : LLMErr → String
  | LLMErr.structuredOutput m => m
  | LLMErr.schemaTooComplex m => m

/-- One `_log_stage` call: retry stage, schema name, level, message and
the `error` extra (absent on success logs). -/
structure LogEntry where
  stage : String
  schemaName : String
  level : String
  message : String
  error : Option String
deriving DecidableEq, Repr

/-- The environment of a structured completion: configured mode and the
outcomes of `_call_parse`, `_compile_schema`, `_call_json_schema` (given
the compiled schema) and `_call_json_mode` (given the cached compiled
schema or `None`). -/
structure MistralEnv where
  so_mode : String
  parseRes : Except LLMErr JVal
  compileRes : Except LLMErr JVal
  jsonSchemaRes : JVal → Except LLMErr JVal
  jsonModeRes : Option JVal → Except LLMErr JVal

/-- `MistralLLMClient._resolve_stage_order`. -/
def resolve_stage_order (so_mode : String) : List String :=
  if so_mode = "json_schema" then ["json_schema", "json_mode"]
  else if so_mode = "json_mode" then ["json_mode"]
  else ["native", "json_schema", "json_mode"]

def successMsg : String → String
  | "native" => "Mistral parse successful"
  | "json_schema" => "Mistral JSON schema successful"
  | "json_mode" => "Mistral json_mode successful"
  | _ => ""

/-- The body of one loop iteration of `_complete_structured` up to the
`except` handlers: attempted result (`none` = unknown stage falls
through), updated compiled-schema cache, and logs emitted inside the
stage body (the json_mode inner `SchemaTooComplexError` catch). -/
def stageBody (env : MistralEnv) (schema_name : String) (compiled : Option JVal) :
    String → Option (Except LLMErr JVal) × Option JVal × List LogEntry
  | "native" => (some env.parseRes, compiled, [])
  | "json_schema" =>
      (match compiled with
       | some c => (some (env.jsonSchemaRes c), some c, [])
       | none =>
           match env.compileRes with
           | Except.error e => (some (Except.error e), none, [])
           | Except.ok c => (some (env.jsonSchemaRes c), some c, []))
  | "json_mode" =>
      (match compiled with
       | some c => (some (env.jsonModeRes (some c)), some c, [])
       | none =>
           match env.compileRes with
           | Except.error (LLMErr.schemaTooComplex m) =>
               (some (env.jsonModeRes none), none,
                [LogEntry.mk "json_mode" schema_name "warning"
                  "Schema too complex for structured compilation; falling back to raw json_mode"
                  (some m)])
           | Except.error e => (some (Except.error e), none, [])
           | Except.ok c => (some (env.jsonModeRes (some c)), some c, []))
  | _ => (none, compiled, [])

/-- The stage loop of `_complete_structured`: success returns immediately
after an info log; a `SchemaTooComplexError` logs a warning, clears the
compiled cache and advances; a `StructuredOutputError` logs a warning and
advances; exhaustion raises the single aggregated error. -/
def completeStructuredGo (env : MistralEnv) (schema_name : String) :
    List String → Option JVal → Option LLMErr → List LogEntry →
    Except LLMErr JVal × List LogEntry
  | [], _, last_error, log =>
      (Except.error (LLMErr.structuredOutput
        (match last_error with
         | some e => "Mistral structured output failed after retries: " ++ e.msg
         | none => "Mistral structured output failed")), log)
  | stage :: rest, compiled, last_error, log =>
      match stageBody env schema_name compiled stage with
      | (none, compiled2, logs2) =>
          completeStructuredGo env schema_name rest compiled2 last_error (log ++ logs2)
      | (some (Except.ok v), _, logs2) =>
          (Except.ok v, log ++ logs2 ++
            [LogEntry.mk stage schema_name "info" (successMsg stage) none])
      | (some (Except.error (LLMErr.schemaTooComplex m)), _, logs2) =>
          completeStructuredGo env schema_name rest none
            (some (LLMErr.schemaTooComplex m))
            (log ++ logs2 ++ [LogEntry.mk stage schema_name "warning"
              "Schema compilation failed, retrying with fallback" (some m)])
      | (some (Except.error (LLMErr.structuredOutput m)), compiled2, logs2) =>
          completeStructuredGo env schema_name rest compiled2
            (some (LLMErr.structuredOutput m))
            (log ++ logs2 ++ [LogEntry.mk stage schema_name "warning"
              "Structured output stage failed" (some m)])

/-- `MistralLLMClient._complete_structured`: run the resolved stage order
with an empty compiled cache, no last error and an empty log. -/
def complete_structured (env : MistralEnv) (schema_name : String) :
    Except LLMErr JVal × List LogEntry :=
  completeStructuredGo env schema_name (resolve_stage_order env.so_mode) none none []

/-! `soft_json_parse` (`core/llm/utils.py` lines 40-57) and the response
processing of `_call_json_mode` (`core/llm/mistral_client.py` lines
308-326). -/

/-- `str.strip()` restricted to the whitespace class of the tokenizer. -/
def pystrip (s : String) : String :=
  String.mk (((s.data.dropWhile isJsonWS).reverse.dropWhile isJsonWS).reverse)

/-- `str.find` (first index of a character, `none` for `-1`). -/
def findIdx : List Char → Char → Option Nat
  | [], _ => none
  | c :: cs, t => if c = t then some 0 else (findIdx cs t).map (· + 1)

/-- `str.rfind` (last index of a character). -/
def rfindIdx (cs : List Char) (t : Char) : Option Nat :=
  match findIdx cs.reverse t with
  | some i => some (cs.length - 1 - i)
  | none => none

/-- `raw[start : stop]`. -/
def sliceChars (cs : List Char) (start stop : Nat) : List Char :=
  (cs.drop start).take (stop - start)

/-- `soft_json_parse`: strip; try `json.loads`; on failure extract the
outermost first-`\x7b`-to-last-`\x7d` span, retry on it, and re-raise the
original error when that also fails. -/
def soft_json_parse (raw : String) : Except String JVal :=
  let r := pystrip raw
  if r.data.isEmpty then Except.error "Empty JSON payload"
  else
    match json_loads r with
    | Except.ok v => Except.ok v
    | Except.error err =>
        match findIdx r.data lbrace, rfindIdx r.data rbrace with
        | some start, some stop =>
            if start < stop then
              match json_loads (String.mk (sliceChars r.data start (stop + 1))) with
              | Except.ok v => Except.ok v
              | Except.error _ => Except.error err
            else Except.error err
        | _, _ => Except.error err

def isObj : JVal → Bool
  | JVal.obj _ => true
  | _ => false

/-- The response processing of `_call_json_mode` on the extracted text
`payload`: `json.loads`, falling back to `soft_json_parse` (failure of
both is a `StructuredOutputError`); a non-object payload is a
`StructuredOutputError`; with a compiled schema the transform runs first
(a transform exception escapes uncaught — the outer `Except String`);
finally `model_validate` (a `ValidationError` becomes a
`StructuredOutputError`). -/
def call_json_mode_process (compiled : Option MModel) (m : MModel)
    (payload : String) : Except String (Except LLMErr JVal) :=
  let parsed : Except LLMErr JVal :=
    match json_loads payload with
    | Except.ok v => Except.ok v
    | Except.error _ =>
        match soft_json_parse payload with
        | Except.ok v => Except.ok v
        | Except.error _ =>
            Except.error (LLMErr.structuredOutput
              "Mistral json_mode response failed to parse")
  match parsed with
  | Except.error e => Except.ok (Except.error e)
  | Except.ok v =>
      if isObj v then
        match compiled with
        | some cm =>
            (match transform_model cm v with
             | Except.error emsg => Except.error emsg
             | Except.ok structured =>
                 Except.ok
                   (match model_validate m structured with
                    | Except.ok out => Except.ok out
                    | Except.error _ => Except.error (LLMErr.structuredOutput
                        "json_mode response failed validation")))
        | none =>
            Except.ok
              (match model_validate m v with
               | Except.ok out => Except.ok out
               | Except.error _ => Except.error (LLMErr.structuredOutput
                   "json_mode response failed validation"))
      else
        Except.ok (Except.error (LLMErr.structuredOutput
          "json_mode response must be a JSON object"))

/-- A one-field model and payload for the json_mode scenarios. -/
def c10Model : MModel := MModel.mk "Tiny" (MFields.ofList [strField "a"])

def c10Val : JVal := JVal.obj (JObj.ofList [("a", JVal.str "b")])

/-- A concrete environment for the fallback-staging scenario: native parse
refuses, schema compilation is too complex, raw json_mode succeeds. -/
def c10Env : MistralEnv := MistralEnv.mk "native"
  (Except.error (LLMErr.structuredOutput "parse refused"))
  (Except.error (LLMErr.schemaTooComplex "map field"))
  (fun _ => Except.error (LLMErr.structuredOutput "unused"))
  (fun _ => Except.ok c10Val)

/-- A concrete environment in which every provider stage fails with a
`StructuredOutputError`. -/
def c5Env : MistralEnv := MistralEnv.mk "native"
  (Except.error (LLMErr.structuredOutput "parse refused"))
  (Except.ok JVal.null)
  (fun _ => Except.error (LLMErr.structuredOutput "schema refused"))
  (fun _ => Except.error (LLMErr.structuredOutput "mode refused"))

theorem rearrange_map_url (l : List SourceData) (n : Nat) :
    (rearrange_sources l n).map SourceData.url = l.map SourceData.url := by
  induction l generalizing n with
  | nil => rfl
  | cons a l ih => simp [rearrange_sources, List.enumFrom] at ih ⊢; exact ih (n + 1)

theorem rearrange_map_number (l : List SourceData) (n : Nat) :
    (rearrange_sources l n).map SourceData.number = List.range' n l.length := by
  induction l generalizing n with
  | nil => rfl
  | cons a l ih =>
      simp [rearrange_sources, List.enumFrom, List.range'] at ih ⊢
      exact ih (n + 1)

theorem dictInsert_fresh (m : List (String × SourceData)) (k : String)
    (v : SourceData) (h : ∀ p ∈ m, p.1 ≠ k) : dictInsert m k v = m ++ [(k, v)] := by
  have hany : m.any (fun kv => kv.1 = k) = false := by
    simp only [List.any_eq_false, decide_eq_true_eq]
    exact h
  simp [dictInsert, hany]

theorem foldl_dictInsert_fresh :
    ∀ (batch : List SourceData) (m : List (String × SourceData)),
    (∀ s ∈ batch, ∀ p ∈ m, p.1 ≠ s.url) → (batch.map SourceData.url).Nodup →
    batch.foldl (fun acc s => dictInsert acc s.url s) m =
      m ++ batch.map (fun s => (s.url, s)) := by
  intro batch
  induction batch with
  | nil => intro m _ _; simp
  | cons a l ih =>
      intro m hfresh hnodup
      have hstep : dictInsert m a.url a = m ++ [(a.url, a)] :=
        dictInsert_fresh m a.url a (fun p hp => hfresh a (by simp) p hp)
      rw [List.map_cons] at hnodup
      have hnodup' : (l.map SourceData.url).Nodup := (List.nodup_cons.mp hnodup).2
      have hnotmem : a.url ∉ l.map SourceData.url := (List.nodup_cons.mp hnodup).1
      have hfresh' : ∀ s ∈ l, ∀ p ∈ m ++ [(a.url, a)], p.1 ≠ s.url := by
        intro s hs p hp
        rcases List.mem_append.mp hp with hp | hp
        · exact hfresh s (by simp [hs]) p hp
        · simp at hp
          subst hp
          simp only
          intro hcontra
          exact hnotmem (hcontra ▸ List.mem_map_of_mem SourceData.url hs)
      calc (a :: l).foldl (fun acc s => dictInsert acc s.url s) m
          = l.foldl (fun acc s => dictInsert acc s.url s) (m ++ [(a.url, a)]) := by
            simp [List.foldl_cons, hstep]
        _ = m ++ [(a.url, a)] ++ l.map (fun s => (s.url, s)) := ih _ hfresh' hnodup'
        _ = m ++ (a :: l).map (fun s => (s.url, s)) := by simp

theorem runSearches_fresh_urls :
    ∀ (batches : List (String × List SourceData)) (ctx : ResearchContext),
    (ctx.sources.map (fun kv => kv.2.number) = List.range' 1 ctx.sources.length) →
    ((ctx.sources.map Prod.fst ++
        batches.flatMap (fun b => b.2.map SourceData.url)).Nodup) →
    ((runSearches ctx batches).sources.map (fun kv => kv.2.number) =
        List.range' 1 (ctx.sources.length + (batches.map (fun b => b.2.length)).sum)) ∧
    ((runSearches ctx batches).sources.map Prod.fst =
        ctx.sources.map Prod.fst ++ batches.flatMap (fun b => b.2.map SourceData.url)) := by
  intro batches
  induction batches with
  | nil =>
      intro ctx hnum _
      exact ⟨by simpa [runSearches] using hnum, by simp [runSearches]⟩
  | cons b rest ih =>
      intro ctx hnum hnodup
      obtain ⟨q, batch⟩ := b
      set ctx' := WebSearchTool_call ctx q batch with hctx'
      have hnodup_all := hnodup
      rw [List.flatMap_cons, ← List.append_assoc] at hnodup_all
      have hnodup_head : (ctx.sources.map Prod.fst ++ batch.map SourceData.url).Nodup :=
        hnodup_all.of_append_left
      have hbatch_nodup : (batch.map SourceData.url).Nodup :=
        hnodup_head.of_append_right
      have hdisj := List.disjoint_of_nodup_append hnodup_head
      have hfresh : ∀ s ∈ rearrange_sources batch (ctx.sources.length + 1),
          ∀ p ∈ ctx.sources, p.1 ≠ s.url := by
        intro s hs p hp hpk
        have hsurl : s.url ∈ batch.map SourceData.url := by
          have := List.mem_map_of_mem SourceData.url hs
          rwa [rearrange_map_url] at this
        exact hdisj (hpk ▸ List.mem_map_of_mem Prod.fst hp) hsurl
      have hre_nodup : ((rearrange_sources batch (ctx.sources.length + 1)).map
          SourceData.url).Nodup := by
        rw [rearrange_map_url]; exact hbatch_nodup
      have hsources : ctx'.sources = ctx.sources ++
          (rearrange_sources batch (ctx.sources.length + 1)).map (fun s => (s.url, s)) := by
        rw [hctx']
        simp only [WebSearchTool_call]
        exact foldl_dictInsert_fresh _ _ hfresh hre_nodup
      have hlen : ctx'.sources.length = ctx.sources.length + batch.length := by
        simp [hsources, rearrange_sources]
      have hmapnum : ((rearrange_sources batch (ctx.sources.length + 1)).map
          (fun s => (s.url, s))).map (fun kv => kv.2.number) =
          List.range' (ctx.sources.length + 1) batch.length := by
        rw [List.map_map]
        have := rearrange_map_number batch (ctx.sources.length + 1)
        simpa [Function.comp] using this
      have hnum' : ctx'.sources.map (fun kv => kv.2.number) =
          List.range' 1 ctx'.sources.length := by
        rw [hsources, List.map_append, hmapnum, hnum]
        have happ := List.range'_append_1 1 ctx.sources.length batch.length
        rw [Nat.add_comm 1 ctx.sources.length] at happ
        rw [happ, List.length_append, List.length_map]
        have hre_len : (rearrange_sources batch (ctx.sources.length + 1)).length =
            batch.length := by
          simp [rearrange_sources]
        rw [hre_len]
        congr 1
        omega
      have hurls' : ctx'.sources.map Prod.fst =
          ctx.sources.map Prod.fst ++ batch.map SourceData.url := by
        rw [hsources, List.map_append, List.map_map]
        have : ((rearrange_sources batch (ctx.sources.length + 1)).map
            (Prod.fst ∘ fun s => (s.url, s))) =
            (rearrange_sources batch (ctx.sources.length + 1)).map SourceData.url := by
          rfl
        rw [this, rearrange_map_url]
      have hnodup' : (ctx'.sources.map Prod.fst ++
          rest.flatMap (fun b => b.2.map SourceData.url)).Nodup := by
        rw [hurls', List.append_assoc]
        simpa [List.flatMap_cons, List.append_assoc] using hnodup
      have hrun : runSearches ctx ((q, batch) :: rest) = runSearches ctx' rest := rfl
      obtain ⟨ihnum, ihurl⟩ := ih ctx' hnum' hnodup'
      refine ⟨?_, ?_⟩
      · rw [hrun, ihnum, hlen]
        congr 1
        simp [List.map_cons, List.sum_cons, Nat.add_assoc]
      · rw [hrun, ihurl, hurls', List.flatMap_cons, List.append_assoc]

/-- Claim C1: the permitted-tool-set computation excludes the
clarification tool whenever `clarifications_used ≥ max_clarifications`,
excludes the web-search tool whenever `searches_used ≥ max_searches`, and
collapses to exactly \x7bcreate-report, complete\x7d whenever
`iteration ≥ max_iterations`, for every combination of the budget
conditions.  This holds without restriction for
`SGRResearchAgent._prepare_tools`; evaluating the sibling
`SGRToolCallingResearchAgent._prepare_tools` at a point where the
iteration budget and the clarification budget are exhausted simultaneously
shows that it raises a `TypeError` instead (its collapse branch assigns a
Python list, on which `-=` is undefined). -/
theorem C1_prepare_tools_budget_gating :
    (∀ it cu su mi mc ms toolkit,
      (mc ≤ cu →
        ToolT.clarification ∉ SGRResearchAgent_prepare_tools it cu su mi mc ms toolkit) ∧
      (ms ≤ su →
        ToolT.webSearch ∉ SGRResearchAgent_prepare_tools it cu su mi mc ms toolkit) ∧
      (mi ≤ it →
        SGRResearchAgent_prepare_tools it cu su mi mc ms toolkit =
          {ToolT.createReport, ToolT.agentCompletion})) ∧
    SGRToolCalling_prepare_tools 10 3 0 10 3 4 sgrToolkit =
      Except.error "TypeError: unsupported operand type(s) for -=: 'list' and 'set'" := by
  constructor
  · intro it cu su mi mc ms toolkit
    refine ⟨?_, ?_, ?_⟩ <;> intro h <;>
      simp only [SGRResearchAgent_prepare_tools] <;>
      split_ifs with h1 h2 h3 <;>
      first
        | (exact absurd h (by assumption))
        | decide
        | simp [Finset.mem_sdiff]
  · rfl

/-- Witness for C1 at concrete budget values, including the combination
where all three budget conditions hold simultaneously. -/
theorem C1_witness :
    (ToolT.clarification ∉ SGRResearchAgent_prepare_tools 2 3 0 10 3 4 sgrToolkit) ∧
    (ToolT.webSearch ∉ SGRResearchAgent_prepare_tools 2 0 4 10 3 4 sgrToolkit) ∧
    (SGRResearchAgent_prepare_tools 10 3 4 10 3 4 sgrToolkit =
      {ToolT.createReport, ToolT.agentCompletion}) :=
  ⟨(C1_prepare_tools_budget_gating.1 2 3 0 10 3 4 sgrToolkit).1 (by decide),
   (C1_prepare_tools_budget_gating.1 2 0 4 10 3 4 sgrToolkit).2.1 (by decide),
   (C1_prepare_tools_budget_gating.1 10 3 4 10 3 4 sgrToolkit).2.2 (by decide)⟩

/-- Claim C2, counterexample: a loop iteration whose decision has
`task_completed = true` but whose executed tool is the plan tool leaves
the context in the non-terminal `RESEARCHING` state — the loop does not
transition to a terminal state and does not exit, contradicting the
claim's "or the reasoning decision's task_completed flag is set"
disjunct (`BaseAgent.execute` never reads `task_completed`). -/
theorem C2_counterexample :
    (executeStep 10 3 4
        (fun _ => { task_completed := true, tool := ToolCall.generatePlan })
        { context := { state := AgentStatesEnum.researching } }).context.state =
      AgentStatesEnum.researching ∧
    AgentStatesEnum.researching ∉ FINISH_STATES := by
  exact ⟨by decide, by decide⟩

/-- Claim C2 (amended): the loop exits with the tool's reported terminal
state when the executed tool is the completion tool (the `task_completed`
flag is only logged and has no control effect); with `max_iterations = 3`
and a model policy that requests a web search whenever one is permitted
and otherwise selects the completion tool, the loop reaches the terminal
state `COMPLETED` at iteration 3 — before iteration 4. -/
theorem C2_completion_tool_terminates :
    (∀ mi mc ms policy (a : AgentSt) st,
      (policy (SGRResearchAgent_prepare_tools (a.context.iteration + 1)
          a.context.clarifications_used a.context.searches_used
          mi mc ms sgrToolkit)).tool = ToolCall.agentCompletion st →
      (executeStep mi mc ms policy a).context.state = st) ∧
    ((executeLoop 3 3 4 searchHungryPolicy 10
        (BaseAgent_execute_start {} "t")).context.state = AgentStatesEnum.completed ∧
     (executeLoop 3 3 4 searchHungryPolicy 10
        (BaseAgent_execute_start {} "t")).context.iteration = 3) := by
  constructor
  · intro mi mc ms policy a st h
    simp only [executeStep, h, ToolCall.tool_name, ToolCall.execute]
    rw [if_neg (by decide : ¬ ("agentcompletiontool" = "clarificationtool"))]
  · exact ⟨by decide, by decide⟩

/-- Witness for C2 (amended) at a concrete policy and agent state. -/
theorem C2_witness :
    (executeStep 10 3 4
        (fun _ => { task_completed := false,
                    tool := ToolCall.agentCompletion AgentStatesEnum.failed })
        { context := { state := AgentStatesEnum.researching } }).context.state =
      AgentStatesEnum.failed :=
  C2_completion_tool_terminates.1 10 3 4 _ _ _ rfl

/-- Claim C3, counterexample: two consecutive searches each returning one
source with the *same* URL "a".  After the first search the context holds
the source numbered 1; after the second it holds a single source numbered
2 — the union of citation numbers is \x7b2\x7d, not \x7b1, 2\x7d (the
number 1 is lost), and the previously stored Source was renumbered in
place, contradicting the claim's no-gaps / never-renumbered guarantees. -/
theorem C3_counterexample :
    (runSearches { state := AgentStatesEnum.researching }
        [("q1", [{ number := 0, url := "a" }])]).sources =
      [("a", { number := 1, url := "a" })] ∧
    (runSearches { state := AgentStatesEnum.researching }
        [("q1", [{ number := 0, url := "a" }]),
         ("q2", [{ number := 0, url := "a" }])]).sources =
      [("a", { number := 2, url := "a" })] := by
  exact ⟨by decide, by decide⟩

/-- Claim C3 (amended): provided the URLs returned across the whole
session are pairwise distinct, the Sources stored in the context after N
searches returning k₁,…,kₙ results carry exactly the citation numbers
1,…,Σkᵢ in insertion order (no gaps, no repeats, numbers assigned
sequentially), and the stored URL list is exactly the concatenation of the
returned URLs — no Source is ever deleted or renumbered. -/
theorem C3_citation_numbering :
    ∀ (batches : List (String × List SourceData)),
    ((batches.flatMap (fun b => b.2.map SourceData.url)).Nodup) →
    ((runSearches {} batches).sources.map (fun kv => kv.2.number) =
        List.range' 1 (batches.map (fun b => b.2.length)).sum) ∧
    ((runSearches {} batches).sources.map Prod.fst =
        batches.flatMap (fun b => b.2.map SourceData.url)) := by
  intro batches hnodup
  have h := runSearches_fresh_urls batches {} (by rfl) (by simpa using hnodup)
  simpa using h

/-- Witness for C3 (amended): two searches with two and one distinct URLs
produce the citation numbers 1, 2, 3 in order. -/
theorem C3_witness :
    ((runSearches {} [("q1", [{ number := 0, url := "a" },
                              { number := 0, url := "b" }]),
                      ("q2", [{ number := 0, url := "c" }])]).sources.map
        (fun kv => kv.2.number) = [1, 2, 3]) ∧
    ((runSearches {} [("q1", [{ number := 0, url := "a" },
                              { number := 0, url := "b" }]),
                      ("q2", [{ number := 0, url := "c" }])]).sources.map
        Prod.fst = ["a", "b", "c"]) := by
  have h := C3_citation_numbering
    [("q1", [{ number := 0, url := "a" }, { number := 0, url := "b" }]),
     ("q2", [{ number := 0, url := "c" }])] (by decide)
  exact ⟨by rw [h.1]; decide, by rw [h.2]; decide⟩

/-- Claim C8: the clarification loop.  A fresh agent starts in `INITED`
and moves to `RESEARCHING` when execution starts; executing the
clarification tool moves the state to `WAITING_FOR_CLARIFICATION` and
clears the clarification signal (the loop suspends there); a subsequent
`provide_clarification("scope: EU market")` appends the text as a user
turn, increments `clarifications_used` to exactly 1, sets the signal, and
returns the state to `RESEARCHING`. -/
theorem C8_clarification_loop :
    (AgentSt.context {}).state = AgentStatesEnum.inited ∧
    ((BaseAgent_execute_start {} "research EU market").context.state =
      AgentStatesEnum.researching) ∧
    ((executeStep 10 3 4
        (fun _ => { task_completed := false, tool := ToolCall.clarification })
        (BaseAgent_execute_start {} "research EU market")).context.state =
      AgentStatesEnum.waiting_for_clarification) ∧
    ((executeStep 10 3 4
        (fun _ => { task_completed := false, tool := ToolCall.clarification })
        (BaseAgent_execute_start {} "research EU market")).context.clarification_received
      = false) ∧
    ((provide_clarification
        (executeStep 10 3 4
          (fun _ => { task_completed := false, tool := ToolCall.clarification })
          (BaseAgent_execute_start {} "research EU market"))
        "scope: EU market").context.state = AgentStatesEnum.researching) ∧
    ((provide_clarification
        (executeStep 10 3 4
          (fun _ => { task_completed := false, tool := ToolCall.clarification })
          (BaseAgent_execute_start {} "research EU market"))
        "scope: EU market").context.clarifications_used = 1) ∧
    ((provide_clarification
        (executeStep 10 3 4
          (fun _ => { task_completed := false, tool := ToolCall.clarification })
          (BaseAgent_execute_start {} "research EU market"))
        "scope: EU market").context.clarification_received = true) ∧
    ((provide_clarification
        (executeStep 10 3 4
          (fun _ => { task_completed := false, tool := ToolCall.clarification })
          (BaseAgent_execute_start {} "research EU market"))
        "scope: EU market").conversation =
      (executeStep 10 3 4
          (fun _ => { task_completed := false, tool := ToolCall.clarification })
          (BaseAgent_execute_start {} "research EU market")).conversation ++
        [{ role := "user", content := "CLARIFICATIONS: scope: EU market" }]) := by
  refine ⟨by decide, by decide, by decide, by decide, by decide, by decide, by decide, ?_⟩
  rfl

/-- Claim C9, counterexample: the clarification endpoint accepts a request
for an agent that is *not* awaiting clarification — it answers 200 and
mutates the agent's context (`clarifications_used` becomes 1) — and for an
unknown agent id it answers with a 500 server error (the internal 404 is
swallowed by the generic exception handler), not a client error. -/
theorem C9_counterexample :
    ((provide_clarification_endpoint
        [("agent1", { context := { state := AgentStatesEnum.researching } })]
        "agent1" { stream := true, messages := [{ role := "user", content := "x" }] }).1 =
      Except.ok 200) ∧
    ((provide_clarification_endpoint
        [("agent1", { context := { state := AgentStatesEnum.researching } })]
        "agent1" { stream := true, messages := [{ role := "user", content := "x" }] }).2.map
          (fun kv => kv.2.context.clarifications_used) = [1]) ∧
    ((provide_clarification_endpoint
        [("agent1", { context := { state := AgentStatesEnum.researching } })]
        "missing" { stream := true, messages := [{ role := "user", content := "x" }] }).1 =
      Except.error (500, "404: Agent not found")) := by
  exact ⟨rfl, by decide, rfl⟩

/-- Claim C9 (amended): the direct clarification endpoint validates only
agent existence, not the lifecycle state.  For an unknown agent id the
request is rejected with status 500 (the internally raised 404 is
rewrapped by the generic handler) and the registry is unchanged; for any
stored agent — whatever its state — the request is accepted with 200 and
the agent's context is mutated: `clarifications_used` is incremented and
the state is set to `RESEARCHING`. -/
theorem C9_endpoint_no_state_check :
    ∀ (reg : List (String × AgentSt)) (id : String) (req : ChatRequest)
      (content : String) (kv : String × AgentSt),
    req.stream = true →
    extract_user_content_from_messages req.messages = Except.ok content →
    ((reg.find? (fun p => p.1 = id) = none →
        provide_clarification_endpoint reg id req =
          (Except.error (500, "404: Agent not found"), reg)) ∧
     (reg.find? (fun p => p.1 = id) = some kv →
        (provide_clarification_endpoint reg id req).1 = Except.ok 200 ∧
        (provide_clarification_endpoint reg id req).2 =
          registryUpdate reg id (provide_clarification kv.2 content) ∧
        (provide_clarification kv.2 content).context.clarifications_used =
          kv.2.context.clarifications_used + 1 ∧
        (provide_clarification kv.2 content).context.state =
          AgentStatesEnum.researching)) := by
  intro reg id req content kv hstream hextract
  constructor
  · intro hnone
    simp [provide_clarification_endpoint, hstream, hextract, hnone]
  · intro hsome
    refine ⟨?_, ?_, ?_, ?_⟩
    · simp [provide_clarification_endpoint, hstream, hextract, hsome]
    · simp [provide_clarification_endpoint, hstream, hextract, hsome]
    · rfl
    · rfl

theorem countNonNone_ofList_models (ms : List MModel) :
    (AnnList.ofList (ms.map Ann.jmodel)).countNonNone = ms.length := by
  induction ms with
  | nil => rfl
  | cons m rest ih => simp [AnnList.ofList, AnnList.countNonNone, ih]

theorem allModelsNN_ofList_models (ms : List MModel) :
    (AnnList.ofList (ms.map Ann.jmodel)).allModelsNN = true := by
  induction ms with
  | nil => rfl
  | cons m rest ih => simpa [AnnList.ofList, AnnList.allModelsNN] using ih

theorem compile_union_variants_models (ms : List MModel)
    (hok : ∀ m ∈ ms, compile_model m = Except.ok (modelSchemaOf m, some (modelTagOf m))) :
    compile_union_variants (AnnList.ofList (ms.map Ann.jmodel)) =
      Except.ok (ms.map (fun m => (modelSchemaOf m, some (modelTagOf m)))) := by
  induction ms with
  | nil => rfl
  | cons m rest ih =>
      have hm := hok m (by simp)
      have hrest := ih (fun x hx => hok x (by simp [hx]))
      simp [AnnList.ofList, compile_union_variants, hm, hrest, bind, Except.bind,
        pure, Except.pure]

theorem compile_union_models (ms : List MModel)
    (h2 : 2 ≤ ms.length)
    (hok : ∀ m ∈ ms, compile_model m = Except.ok (modelSchemaOf m, some (modelTagOf m)))
    (hne : ∀ m ∈ ms, modelTagOf m ≠ "") :
    compile_ann (unionOfModels ms) = Except.ok (JVal.obj (JObj.ofList
      [("oneOf", JVal.arr (JArr.ofList (ms.map modelSchemaOf))),
       ("discriminator", JVal.obj (JObj.ofList
         [("propertyName", JVal.str "kind")]))])) := by
  match ms, h2 with
  | m0 :: m1 :: rest, _ =>
    have hok0 := hok m0 (by simp)
    have hcuv := compile_union_variants_models (m1 :: rest)
      (fun x hx => hok x (by simp at hx ⊢; tauto))
    have hcount := countNonNone_ofList_models (m1 :: rest)
    have hall : (AnnList.ofList ((m0 :: m1 :: rest).map Ann.jmodel)).allModelsNN = true :=
      allModelsNN_ofList_models _
    have halltruthy : ((m0 :: m1 :: rest).map
        (fun m => (modelSchemaOf m, some (modelTagOf m)))).all
        (fun p => match p.2 with
          | some t => t ≠ ""
          | none => false) = true := by
      rw [List.all_eq_true]
      intro p hp
      rw [List.mem_map] at hp
      obtain ⟨m, hm, hpeq⟩ := hp
      subst hpeq
      simpa using hne m hm
    rw [unionOfModels]
    simp only [List.map_cons, AnnList.ofList]
    rw [compile_ann]
    rw [compile_union]
    rw [if_neg (by simp [AnnList.countNonNone, countNonNone_ofList_models])]
    rw [if_pos (by simpa [AnnList.ofList, AnnList.allModelsNN, List.map_cons] using hall)]
    rw [hok0]
    simp only [List.map_cons, AnnList.ofList] at hcuv
    rw [hcuv]
    simp only [Except.bind, bind]
    rw [if_pos (by simpa [List.map_cons] using halltruthy)]
    have hcomp : (Prod.fst ∘ fun m => (modelSchemaOf m, some (modelTagOf m))) =
        modelSchemaOf := rfl
    simp [List.map_map, hcomp, pure, Except.pure]

/-- Per-model compilation facts for the six discriminant tool models. -/
theorem toolModels_compile : ∀ m ∈ allDiscToolModels,
    compile_model m = Except.ok (modelSchemaOf m, some (modelTagOf m)) ∧
    modelTagOf m ≠ "" ∧
    kindPropertyOf (modelSchemaOf m) = some (JVal.obj (JObj.ofList
      [("type", JVal.str "string"),
       ("enum", JVal.arr (JArr.ofList [JVal.str (modelTagOf m)])),
       ("description", JVal.str "")])) := by
  intro m hm
  simp only [allDiscToolModels, List.mem_cons, List.not_mem_nil, or_false] at hm
  rcases hm with h | h | h | h | h | h <;> subst h <;>
    exact ⟨by decide, by decide, by decide⟩

/-- Claim C6: for every tagged union drawn from the repository's tool
record types, the compiled JSON Schema carries the discriminator pointer
`\x7b"propertyName": "kind"\x7d`, each branch schema declares its own
literal tag as a single-value enum under the `kind` property, the tags are
pairwise distinct, and the number of distinct tags equals the number of
input tool types. -/
theorem C6_union_discriminator_schema (ms : List MModel)
    (hsub : ms.Sublist allDiscToolModels) (h2 : 2 ≤ ms.length) :
    (compile_ann (unionOfModels ms) = Except.ok (JVal.obj (JObj.ofList
      [("oneOf", JVal.arr (JArr.ofList (ms.map modelSchemaOf))),
       ("discriminator", JVal.obj (JObj.ofList
         [("propertyName", JVal.str "kind")]))]))) ∧
    (∀ m ∈ ms, kindPropertyOf (modelSchemaOf m) = some (JVal.obj (JObj.ofList
      [("type", JVal.str "string"),
       ("enum", JVal.arr (JArr.ofList [JVal.str (modelTagOf m)])),
       ("description", JVal.str "")]))) ∧
    (ms.map modelTagOf).Nodup ∧
    (ms.map modelTagOf).toFinset.card = ms.length := by
  have hfacts : ∀ m ∈ ms,
      compile_model m = Except.ok (modelSchemaOf m, some (modelTagOf m)) ∧
      modelTagOf m ≠ "" ∧
      kindPropertyOf (modelSchemaOf m) = some (JVal.obj (JObj.ofList
        [("type", JVal.str "string"),
         ("enum", JVal.arr (JArr.ofList [JVal.str (modelTagOf m)])),
         ("description", JVal.str "")])) :=
    fun m hm => toolModels_compile m (hsub.subset hm)
  have hnodup : (ms.map modelTagOf).Nodup := by
    have hfull : (allDiscToolModels.map modelTagOf).Nodup := by decide
    exact hfull.sublist (hsub.map modelTagOf)
  refine ⟨?_, fun m hm => (hfacts m hm).2.2, hnodup, ?_⟩
  · exact compile_union_models ms h2 (fun m hm => (hfacts m hm).1)
      (fun m hm => (hfacts m hm).2.1)
  · rw [List.toFinset_card_of_nodup hnodup, List.length_map]

/-- Witness for C6 at the two-element union of the web-search and
create-report tools. -/
theorem C6_witness :
    compile_ann (unionOfModels [WebSearchToolD, CreateReportToolD]) =
      Except.ok (JVal.obj (JObj.ofList
        [("oneOf", JVal.arr (JArr.ofList
           ([WebSearchToolD, CreateReportToolD].map modelSchemaOf))),
         ("discriminator", JVal.obj (JObj.ofList
           [("propertyName", JVal.str "kind")]))])) ∧
    ([WebSearchToolD, CreateReportToolD].map modelTagOf).Nodup :=
  ⟨(C6_union_discriminator_schema [WebSearchToolD, CreateReportToolD]
      (by decide) (by decide)).1,
   (C6_union_discriminator_schema [WebSearchToolD, CreateReportToolD]
      (by decide) (by decide)).2.2.1⟩

theorem okOrSTC_bind {α β : Type} {e : Except LLMErr α} {f : α → Except LLMErr β}
    (he : okOrSTC e) (hf : ∀ x, okOrSTC (f x)) : okOrSTC (e >>= f) := by
  cases e with
  | ok x => simpa [bind, Except.bind] using hf x
  | error er =>
      cases er with
      | schemaTooComplex m2 => simp [bind, Except.bind, okOrSTC]
      | structuredOutput m2 => exact False.elim he

theorem compile_union_branch_okOrSTC (a : Ann) (rest : AnnList)
    (hann : okOrSTC (compile_ann a))
    (hhead : okOrSTC (unionHeadCompile a))
    (hrest : okOrSTC (compile_union_variants rest)) :
    okOrSTC (if rest.countNonNone = 0 then compile_ann a
      else if (AnnList.cons a rest).allModelsNN = true then
        (unionHeadCompile a >>= fun headp =>
         compile_union_variants rest >>= fun restps =>
         (if (headp :: restps).all (fun p => match p.2 with
             | some t => t ≠ ""
             | none => false) then
           Except.ok (JVal.obj (JObj.ofList
             [("oneOf", JVal.arr (JArr.ofList ((headp :: restps).map Prod.fst))),
              ("discriminator", JVal.obj (JObj.ofList
                [("propertyName", JVal.str "kind")]))]))
         else Except.error (LLMErr.schemaTooComplex
           "Discriminator value required for all union variants")))
      else Except.error (LLMErr.schemaTooComplex
        "Only unions of BaseModel are supported")) := by
  by_cases h0 : rest.countNonNone = 0
  · rw [if_pos h0]; exact hann
  · rw [if_neg h0]
    by_cases hall : (AnnList.cons a rest).allModelsNN = true
    · rw [if_pos hall]
      refine okOrSTC_bind hhead ?_
      intro headp
      refine okOrSTC_bind hrest ?_
      intro restps
      by_cases ht : ((headp :: restps).all (fun p => match p.2 with
          | some t => t ≠ ""
          | none => false)) = true
      · simp only [ht, if_true]; simp [okOrSTC]
      · simp only [ht, if_false]; simp [okOrSTC]
    · rw [if_neg hall]; simp [okOrSTC]

mutual

theorem compile_model_okOrSTC : ∀ m : MModel, okOrSTC (compile_model m)
  | MModel.mk name fields => by
      have h := compile_fields_okOrSTC fields JObj.nil [] none
      rw [compile_model]
      cases hc : compile_fields fields JObj.nil [] none with
      | ok out => simp [bind, Except.bind, hc, okOrSTC, pure, Except.pure]
      | error e =>
          rw [hc] at h
          cases e with
          | schemaTooComplex m2 => simp [bind, Except.bind, hc, okOrSTC]
          | structuredOutput m2 => exact False.elim h

theorem compile_fields_okOrSTC : ∀ (fs : MFields) (props : JObj)
    (req : List String) (disc : Option String),
    okOrSTC (compile_fields fs props req disc)
  | MFields.nil, props, req, disc => by simp [compile_fields, okOrSTC]
  | MFields.cons (MField.mk fname fann freq fdef) rest, props, req, disc => by
      simp only [compile_fields]
      by_cases hd : strEndsWith fname "_discriminator" = true
      · rw [if_pos hd]
        cases fdef with
        | none => simp [okOrSTC]
        | some d => exact compile_fields_okOrSTC rest _ _ _
      · rw [if_neg hd]
        have ha := compile_ann_okOrSTC fann
        cases hc : compile_ann fann with
        | ok s =>
            simpa [bind, Except.bind, hc] using compile_fields_okOrSTC rest _ _ _
        | error e =>
            rw [hc] at ha
            cases e with
            | schemaTooComplex m2 => simp [bind, Except.bind, hc, okOrSTC]
            | structuredOutput m2 => exact False.elim ha

theorem compile_ann_okOrSTC : ∀ a : Ann, okOrSTC (compile_ann a)
  | Ann.jstr => by simp [compile_ann, okOrSTC]
  | Ann.jint => by simp [compile_ann, okOrSTC]
  | Ann.jfloat => by simp [compile_ann, okOrSTC]
  | Ann.jbool => by simp [compile_ann, okOrSTC]
  | Ann.jenum vs => by simp [compile_ann, okOrSTC]
  | Ann.jlit vs => by
      cases vs with
      | nil => simp [compile_ann, okOrSTC]
      | cons v rest => simp [compile_ann, okOrSTC]
  | Ann.jnone => by simp [compile_ann, okOrSTC]
  | Ann.jmap k v => by simp [compile_ann, okOrSTC]
  | Ann.jtuple items => by simp [compile_ann, okOrSTC]
  | Ann.jmodel m => by
      have h := compile_model_okOrSTC m
      rw [compile_ann]
      cases hc : compile_model m with
      | ok p => simp [bind, Except.bind, hc, okOrSTC, pure, Except.pure]
      | error e =>
          rw [hc] at h
          cases e with
          | schemaTooComplex m2 => simp [bind, Except.bind, hc, okOrSTC]
          | structuredOutput m2 => exact False.elim h
  | Ann.jlist item => by
      have h := compile_ann_okOrSTC item
      rw [compile_ann]
      cases hc : compile_ann item with
      | ok s => simp [bind, Except.bind, hc, okOrSTC, pure, Except.pure]
      | error e =>
          rw [hc] at h
          cases e with
          | schemaTooComplex m2 => simp [bind, Except.bind, hc, okOrSTC]
          | structuredOutput m2 => exact False.elim h
  | Ann.junion args => by
      rw [compile_ann]
      exact compile_union_okOrSTC args

theorem compile_union_okOrSTC : ∀ l : AnnList, okOrSTC (compile_union l)
  | AnnList.nil => by simp [compile_union, okOrSTC]
  | AnnList.cons Ann.jnone rest => by
      simp only [compile_union]
      exact compile_union_okOrSTC rest
  | AnnList.cons Ann.jstr rest => by
      simp only [compile_union]
      exact compile_union_branch_okOrSTC _ rest (compile_ann_okOrSTC Ann.jstr)
        (by simp [okOrSTC, unionHeadCompile]) (compile_union_variants_okOrSTC rest)
  | AnnList.cons Ann.jint rest => by
      simp only [compile_union]
      exact compile_union_branch_okOrSTC _ rest (compile_ann_okOrSTC Ann.jint)
        (by simp [okOrSTC, unionHeadCompile]) (compile_union_variants_okOrSTC rest)
  | AnnList.cons Ann.jfloat rest => by
      simp only [compile_union]
      exact compile_union_branch_okOrSTC _ rest (compile_ann_okOrSTC Ann.jfloat)
        (by simp [okOrSTC, unionHeadCompile]) (compile_union_variants_okOrSTC rest)
  | AnnList.cons Ann.jbool rest => by
      simp only [compile_union]
      exact compile_union_branch_okOrSTC _ rest (compile_ann_okOrSTC Ann.jbool)
        (by simp [okOrSTC, unionHeadCompile]) (compile_union_variants_okOrSTC rest)
  | AnnList.cons (Ann.jenum vs) rest => by
      simp only [compile_union]
      exact compile_union_branch_okOrSTC _ rest (compile_ann_okOrSTC (Ann.jenum vs))
        (by simp [okOrSTC, unionHeadCompile]) (compile_union_variants_okOrSTC rest)
  | AnnList.cons (Ann.jlit vs) rest => by
      simp only [compile_union]
      exact compile_union_branch_okOrSTC _ rest (compile_ann_okOrSTC (Ann.jlit vs))
        (by simp [okOrSTC, unionHeadCompile]) (compile_union_variants_okOrSTC rest)
  | AnnList.cons (Ann.jlist a) rest => by
      simp only [compile_union]
      exact compile_union_branch_okOrSTC _ rest (compile_ann_okOrSTC (Ann.jlist a))
        (by simp [okOrSTC, unionHeadCompile]) (compile_union_variants_okOrSTC rest)
  | AnnList.cons (Ann.jmap k v) rest => by
      simp only [compile_union]
      exact compile_union_branch_okOrSTC _ rest (compile_ann_okOrSTC (Ann.jmap k v))
        (by simp [okOrSTC, unionHeadCompile]) (compile_union_variants_okOrSTC rest)
  | AnnList.cons (Ann.jtuple i) rest => by
      simp only [compile_union]
      exact compile_union_branch_okOrSTC _ rest (compile_ann_okOrSTC (Ann.jtuple i))
        (by simp [okOrSTC, unionHeadCompile]) (compile_union_variants_okOrSTC rest)
  | AnnList.cons (Ann.jmodel m) rest => by
      simp only [compile_union]
      exact compile_union_branch_okOrSTC _ rest (compile_ann_okOrSTC (Ann.jmodel m))
        (compile_model_okOrSTC m) (compile_union_variants_okOrSTC rest)
  | AnnList.cons (Ann.junion a) rest => by
      simp only [compile_union]
      exact compile_union_branch_okOrSTC _ rest (compile_ann_okOrSTC (Ann.junion a))
        (by simp [okOrSTC, unionHeadCompile]) (compile_union_variants_okOrSTC rest)

theorem compile_union_variants_okOrSTC : ∀ l : AnnList,
    okOrSTC (compile_union_variants l)
  | AnnList.nil => by simp [compile_union_variants, okOrSTC]
  | AnnList.cons Ann.jnone rest => by
      simp only [compile_union_variants]
      exact compile_union_variants_okOrSTC rest
  | AnnList.cons (Ann.jmodel m) rest => by
      simp only [compile_union_variants]
      refine okOrSTC_bind (compile_model_okOrSTC m) ?_
      intro p
      refine okOrSTC_bind (compile_union_variants_okOrSTC rest) ?_
      intro ps
      simp [okOrSTC, pure, Except.pure]
  | AnnList.cons Ann.jstr rest => by simp [compile_union_variants, okOrSTC]
  | AnnList.cons Ann.jint rest => by simp [compile_union_variants, okOrSTC]
  | AnnList.cons Ann.jfloat rest => by simp [compile_union_variants, okOrSTC]
  | AnnList.cons Ann.jbool rest => by simp [compile_union_variants, okOrSTC]
  | AnnList.cons (Ann.jenum vs) rest => by simp [compile_union_variants, okOrSTC]
  | AnnList.cons (Ann.jlit vs) rest => by simp [compile_union_variants, okOrSTC]
  | AnnList.cons (Ann.jlist a) rest => by simp [compile_union_variants, okOrSTC]
  | AnnList.cons (Ann.jmap k v) rest => by simp [compile_union_variants, okOrSTC]
  | AnnList.cons (Ann.jtuple i) rest => by simp [compile_union_variants, okOrSTC]
  | AnnList.cons (Ann.junion a) rest => by simp [compile_union_variants, okOrSTC]

end

theorem compile_fields_field_ok :
    ∀ (fs : MFields) (props : JObj) (req : List String) (disc : Option String)
      (out : JObj × List String × Option String),
    compile_fields fs props req disc = Except.ok out →
    ∀ f ∈ fs.toList, strEndsWith f.name "_discriminator" = false →
    ∃ s, compile_ann f.ann = Except.ok s
  | MFields.nil, props, req, disc, out => by
      intro _ f hf
      simp [MFields.toList] at hf
  | MFields.cons (MField.mk fname fann freq fdef) rest, props, req, disc, out => by
      intro hok f hf hnd
      simp only [compile_fields] at hok
      rw [MFields.toList, List.mem_cons] at hf
      by_cases hd : strEndsWith fname "_discriminator" = true
      · rw [if_pos hd] at hok
        cases fdef with
        | none => exact absurd hok (by simp)
        | some d =>
            rcases hf with hf | hf
            · subst hf
              rw [MField.name] at hnd
              rw [hnd] at hd
              exact absurd hd (by simp)
            · exact compile_fields_field_ok rest _ _ _ _ hok f hf hnd
      · rw [if_neg hd] at hok
        cases hc : compile_ann fann with
        | error e =>
            rw [hc] at hok
            exact absurd hok (by simp [bind, Except.bind])
        | ok s =>
            rw [hc] at hok
            simp only [bind, Except.bind] at hok
            rcases hf with hf | hf
            · subst hf
              exact ⟨s, by rw [MField.ann]; exact hc⟩
            · exact compile_fields_field_ok rest _ _ _ _ hok f hf hnd

theorem compile_fields_disc_eq :
    ∀ (fs : MFields) (props : JObj) (req : List String) (disc : Option String)
      (out : JObj × List String × Option String),
    compile_fields fs props req disc = Except.ok out →
    out.2.2 = (match discValueFields fs with
      | some t => some t
      | none => disc)
  | MFields.nil, props, req, disc, out => by
      intro hok
      simp only [compile_fields, Except.ok.injEq] at hok
      rw [← hok]
      simp [discValueFields]
  | MFields.cons (MField.mk fname fann freq fdef) rest, props, req, disc, out => by
      intro hok
      simp only [compile_fields] at hok
      by_cases hd : strEndsWith fname "_discriminator" = true
      · rw [if_pos hd] at hok
        cases fdef with
        | none => exact absurd hok (by simp)
        | some d =>
            have h := compile_fields_disc_eq rest _ _ _ _ hok
            rw [h]
            simp only [discValueFields, hd, if_true, Option.map_some]
            cases discValueFields rest <;> simp
      · rw [if_neg hd] at hok
        cases hc : compile_ann fann with
        | error e =>
            rw [hc] at hok
            exact absurd hok (by simp [bind, Except.bind])
        | ok s =>
            rw [hc] at hok
            simp only [bind, Except.bind] at hok
            have h := compile_fields_disc_eq rest _ _ _ _ hok
            rw [h]
            simp only [discValueFields, hd, if_false]
            cases discValueFields rest <;> simp

theorem compile_model_disc (m : MModel) (p : JVal × Option String)
    (hok : compile_model m = Except.ok p) : p.2 = modelDiscValue m := by
  cases m with
  | mk name fields =>
    simp only [compile_model] at hok
    cases hc : compile_fields fields JObj.nil [] none with
    | error e => rw [hc] at hok; exact absurd hok (by simp [bind, Except.bind])
    | ok out =>
        rw [hc] at hok
        simp only [bind, Except.bind, pure, Except.pure, Except.ok.injEq] at hok
        have hd := compile_fields_disc_eq fields JObj.nil [] none out hc
        rw [← hok]
        simp only [modelDiscValue, MModel.fields]
        rw [hd]
        cases discValueFields fields <;> simp

theorem cuv_tags : ∀ (l : AnnList) (lst : List (JVal × Option String)),
    compile_union_variants l = Except.ok lst →
    lst.map Prod.snd = (unionVariantsD l).map modelDiscValue
  | AnnList.nil, lst => by
      intro hok
      simp only [compile_union_variants, Except.ok.injEq] at hok
      rw [← hok]
      simp [unionVariantsD]
  | AnnList.cons Ann.jnone rest, lst => by
      intro hok
      simp only [compile_union_variants] at hok
      simpa [unionVariantsD] using cuv_tags rest lst hok
  | AnnList.cons (Ann.jmodel m) rest, lst => by
      intro hok
      simp only [compile_union_variants] at hok
      cases hp : compile_model m with
      | error e => rw [hp] at hok; exact absurd hok (by simp [bind, Except.bind])
      | ok p =>
          rw [hp] at hok
          cases hps : compile_union_variants rest with
          | error e =>
              rw [hps] at hok
              exact absurd hok (by simp [bind, Except.bind])
          | ok ps =>
              rw [hps] at hok
              simp only [bind, Except.bind, pure, Except.pure,
                Except.ok.injEq] at hok
              rw [← hok]
              simp only [unionVariantsD, List.map_cons]
              rw [cuv_tags rest ps hps, compile_model_disc m p hp]
  | AnnList.cons Ann.jstr rest, lst => by
      intro hok; exact absurd hok (by simp [compile_union_variants])
  | AnnList.cons Ann.jint rest, lst => by
      intro hok; exact absurd hok (by simp [compile_union_variants])
  | AnnList.cons Ann.jfloat rest, lst => by
      intro hok; exact absurd hok (by simp [compile_union_variants])
  | AnnList.cons Ann.jbool rest, lst => by
      intro hok; exact absurd hok (by simp [compile_union_variants])
  | AnnList.cons (Ann.jenum vs) rest, lst => by
      intro hok; exact absurd hok (by simp [compile_union_variants])
  | AnnList.cons (Ann.jlit vs) rest, lst => by
      intro hok; exact absurd hok (by simp [compile_union_variants])
  | AnnList.cons (Ann.jlist x) rest, lst => by
      intro hok; exact absurd hok (by simp [compile_union_variants])
  | AnnList.cons (Ann.jmap k v) rest, lst => by
      intro hok; exact absurd hok (by simp [compile_union_variants])
  | AnnList.cons (Ann.jtuple i) rest, lst => by
      intro hok; exact absurd hok (by simp [compile_union_variants])
  | AnnList.cons (Ann.junion x) rest, lst => by
      intro hok; exact absurd hok (by simp [compile_union_variants])

theorem isSTC_exists {α : Type} (r : Except LLMErr α) (h : okOrSTC r)
    (e : LLMErr) (he : r = Except.error e) :
    ∃ msg, r = Except.error (LLMErr.schemaTooComplex msg) := by
  subst he
  cases e with
  | schemaTooComplex msg => exact ⟨msg, rfl⟩
  | structuredOutput msg => exact False.elim h

theorem compile_union_offending : ∀ l : AnnList, 2 ≤ l.countNonNone →
    (l.allModelsNN = false ∨ ∃ m ∈ unionVariantsD l, ¬ truthyDisc m) →
    ∃ msg, compile_union l = Except.error (LLMErr.schemaTooComplex msg)
  | AnnList.nil => by
      intro h2 _
      simp [AnnList.countNonNone] at h2
  | AnnList.cons Ann.jnone rest => by
      intro h2 hbad
      simp only [AnnList.countNonNone] at h2
      simp only [AnnList.allModelsNN, unionVariantsD] at hbad
      simp only [compile_union]
      exact compile_union_offending rest h2 hbad
  | AnnList.cons (Ann.jmodel m0) rest => by
      intro h2 hbad
      simp only [AnnList.countNonNone] at h2
      have h0 : ¬ (rest.countNonNone = 0) := by omega
      simp only [compile_union]
      rw [if_neg h0]
      by_cases hall : (AnnList.cons (Ann.jmodel m0) rest).allModelsNN = true
      · rw [if_pos hall]
        rcases hbad with hbad | ⟨mb, hmb, hbd⟩
        · rw [hbad] at hall
          exact absurd hall (by simp)
        · cases hp : compile_model m0 with
          | error e =>
              have hstc := compile_model_okOrSTC m0
              rw [hp] at hstc
              refine isSTC_exists _ ?_ e ?_ <;>
                simp [bind, Except.bind, hp]
              · cases e with
                | schemaTooComplex m2 => simp [okOrSTC]
                | structuredOutput m2 => exact False.elim hstc
          | ok p0 =>
              cases hps : compile_union_variants rest with
              | error e =>
                  have hstc := compile_union_variants_okOrSTC rest
                  rw [hps] at hstc
                  refine isSTC_exists _ ?_ e ?_ <;>
                    simp [bind, Except.bind, hp, hps]
                  · cases e with
                    | schemaTooComplex m2 => simp [okOrSTC]
                    | structuredOutput m2 => exact False.elim hstc
              | ok ps =>
                  have htags := cuv_tags rest ps hps
                  have hp0 := compile_model_disc m0 p0 hp
                  have hbadpair : ∃ p ∈ p0 :: ps, p.2 = modelDiscValue mb := by
                    simp only [unionVariantsD, List.mem_cons] at hmb
                    rcases hmb with hmb | hmb
                    · exact ⟨p0, by simp, by rw [hp0, hmb]⟩
                    · have : modelDiscValue mb ∈ ps.map Prod.snd := by
                        rw [htags]
                        exact List.mem_map_of_mem modelDiscValue hmb
                      rw [List.mem_map] at this
                      obtain ⟨p, hpmem, hpeq⟩ := this
                      exact ⟨p, by simp [hpmem], hpeq⟩
                  have hallfalse : ((p0 :: ps).all (fun p => match p.2 with
                      | some t => t ≠ ""
                      | none => false)) = false := by
                    obtain ⟨p, hpmem, hpeq⟩ := hbadpair
                    rw [List.all_eq_false]
                    refine ⟨p, hpmem, ?_⟩
                    rw [hpeq]
                    simp only [truthyDisc] at hbd
                    cases hmd : modelDiscValue mb with
                    | none => simp
                    | some t =>
                        rw [hmd] at hbd
                        simp at hbd ⊢
                        exact hbd
                  simp only [bind, Except.bind]
                  rw [if_neg (by rw [hallfalse]; simp)]
                  exact ⟨_, rfl⟩
      · rw [if_neg hall]
        exact ⟨_, rfl⟩
  | AnnList.cons Ann.jstr rest => by
      intro h2 _
      simp only [AnnList.countNonNone] at h2
      simp only [compile_union]
      rw [if_neg (by omega : ¬ (rest.countNonNone = 0))]
      rw [if_neg (by simp [AnnList.allModelsNN])]
      exact ⟨_, rfl⟩
  | AnnList.cons Ann.jint rest => by
      intro h2 _
      simp only [AnnList.countNonNone] at h2
      simp only [compile_union]
      rw [if_neg (by omega : ¬ (rest.countNonNone = 0))]
      rw [if_neg (by simp [AnnList.allModelsNN])]
      exact ⟨_, rfl⟩
  | AnnList.cons Ann.jfloat rest => by
      intro h2 _
      simp only [AnnList.countNonNone] at h2
      simp only [compile_union]
      rw [if_neg (by omega : ¬ (rest.countNonNone = 0))]
      rw [if_neg (by simp [AnnList.allModelsNN])]
      exact ⟨_, rfl⟩
  | AnnList.cons Ann.jbool rest => by
      intro h2 _
      simp only [AnnList.countNonNone] at h2
      simp only [compile_union]
      rw [if_neg (by omega : ¬ (rest.countNonNone = 0))]
      rw [if_neg (by simp [AnnList.allModelsNN])]
      exact ⟨_, rfl⟩
  | AnnList.cons (Ann.jenum vs) rest => by
      intro h2 _
      simp only [AnnList.countNonNone] at h2
      simp only [compile_union]
      rw [if_neg (by omega : ¬ (rest.countNonNone = 0))]
      rw [if_neg (by simp [AnnList.allModelsNN])]
      exact ⟨_, rfl⟩
  | AnnList.cons (Ann.jlit vs) rest => by
      intro h2 _
      simp only [AnnList.countNonNone] at h2
      simp only [compile_union]
      rw [if_neg (by omega : ¬ (rest.countNonNone = 0))]
      rw [if_neg (by simp [AnnList.allModelsNN])]
      exact ⟨_, rfl⟩
  | AnnList.cons (Ann.jlist x) rest => by
      intro h2 _
      simp only [AnnList.countNonNone] at h2
      simp only [compile_union]
      rw [if_neg (by omega : ¬ (rest.countNonNone = 0))]
      rw [if_neg (by simp [AnnList.allModelsNN])]
      exact ⟨_, rfl⟩
  | AnnList.cons (Ann.jmap k v) rest => by
      intro h2 _
      simp only [AnnList.countNonNone] at h2
      simp only [compile_union]
      rw [if_neg (by omega : ¬ (rest.countNonNone = 0))]
      rw [if_neg (by simp [AnnList.allModelsNN])]
      exact ⟨_, rfl⟩
  | AnnList.cons (Ann.jtuple i) rest => by
      intro h2 _
      simp only [AnnList.countNonNone] at h2
      simp only [compile_union]
      rw [if_neg (by omega : ¬ (rest.countNonNone = 0))]
      rw [if_neg (by simp [AnnList.allModelsNN])]
      exact ⟨_, rfl⟩
  | AnnList.cons (Ann.junion x) rest => by
      intro h2 _
      simp only [AnnList.countNonNone] at h2
      simp only [compile_union]
      rw [if_neg (by omega : ¬ (rest.countNonNone = 0))]
      rw [if_neg (by simp [AnnList.allModelsNN])]
      exact ⟨_, rfl⟩

theorem compile_ann_offending (a : Ann) (hoff : offendingAnn a) :
    ∃ msg, compile_ann a = Except.error (LLMErr.schemaTooComplex msg) := by
  cases a with
  | jmap k v =>
      exact ⟨"Mapping fields are not supported in structured outputs",
        by simp [compile_ann]⟩
  | jtuple items =>
      exact ⟨"Tuple types are not supported", by simp [compile_ann]⟩
  | junion args =>
      obtain ⟨h2, hbad⟩ := hoff
      have h := compile_union_offending args h2 (by
        rcases hbad with hb | hb
        · exact Or.inl hb
        · exact Or.inr hb)
      simpa [compile_ann] using h
  | jstr => exact absurd hoff (by simp [offendingAnn])
  | jint => exact absurd hoff (by simp [offendingAnn])
  | jfloat => exact absurd hoff (by simp [offendingAnn])
  | jbool => exact absurd hoff (by simp [offendingAnn])
  | jenum vs => exact absurd hoff (by simp [offendingAnn])
  | jlit vs => exact absurd hoff (by simp [offendingAnn])
  | jlist x => exact absurd hoff (by simp [offendingAnn])
  | jmodel m => exact absurd hoff (by simp [offendingAnn])
  | jnone => exact absurd hoff (by simp [offendingAnn])

/-- Claim C7 (amended): for every model with a field whose name does not
end in `_discriminator` and whose annotation is an arbitrary key-map, a
tuple, or a union of two or more non-`None` members that are not all
records carrying a truthy literal discriminator, `_compile_model` raises a
`SchemaTooComplexError` — an error constructor distinct from
`StructuredOutputError` — and produces no schema.  A field *named* with
the `_discriminator` suffix escapes this check: its annotation is never
inspected (see the counterexample). -/
theorem C7_unsupported_constructs :
    (∀ (m : MModel) (f : MField), f ∈ m.fields.toList →
      strEndsWith f.name "_discriminator" = false →
      offendingAnn f.ann →
      ∃ msg, compile_model m = Except.error (LLMErr.schemaTooComplex msg)) ∧
    (∀ s t, LLMErr.schemaTooComplex s ≠ LLMErr.structuredOutput t) := by
  constructor
  · intro m f hf hnd hoff
    cases hc : compile_model m with
    | ok p =>
        obtain ⟨name, fields⟩ := m
        simp only [compile_model] at hc
        cases hcf : compile_fields fields JObj.nil [] none with
        | error e =>
            rw [hcf] at hc
            exact absurd hc (by simp [bind, Except.bind])
        | ok out =>
            obtain ⟨s, hs⟩ := compile_fields_field_ok fields JObj.nil [] none out hcf
              f (by simpa [MModel.fields] using hf) hnd
            obtain ⟨msg, hmsg⟩ := compile_ann_offending f.ann hoff
            rw [hs] at hmsg
            exact absurd hmsg (by simp)
    | error e =>
        have h := compile_model_okOrSTC m
        rw [hc] at h
        exact isSTC_exists (Except.error e) h e rfl
  · intro s t h
    exact LLMErr.noConfusion h

/-- Claim C7, counterexample: a model containing an arbitrary key-map
(`Dict[str, str]`) field compiles *successfully* when the field's name
ends in `_discriminator` and it has a default — the field is treated as a
discriminator declaration (`kind` enum over `str(\x7b\x7d) = "\x7b\x7d"`)
and its map annotation is never inspected, so no Schema-Too-Complex error
is raised and a (lossy) schema is produced, contradicting the claim as
stated. -/
theorem C7_counterexample :
    MField.mk "payload_discriminator" (Ann.jmap Ann.jstr Ann.jstr) false
        (some (JVal.obj JObj.nil)) ∈ weirdMapModel.fields.toList ∧
    compile_model weirdMapModel = Except.ok (JVal.obj (JObj.ofList
      [("type", JVal.str "object"),
       ("properties", JVal.obj (JObj.ofList
         [("kind", JVal.obj (JObj.ofList
           [("type", JVal.str "string"),
            ("enum", JVal.arr (JArr.ofList [JVal.str "\x7b\x7d"])),
            ("description", JVal.str "")]))])),
       ("additionalProperties", JVal.bool false),
       ("required", JVal.arr (JArr.ofList [JVal.str "kind"]))]),
      some "\x7b\x7d") := by
  exact ⟨by decide, by decide⟩

/-- Witness for C7 (amended): a model with an ordinary key-map field is
rejected with a `SchemaTooComplexError`. -/
theorem C7_witness :
    ∃ msg, compile_model mapFieldModel =
      Except.error (LLMErr.schemaTooComplex msg) :=
  C7_unsupported_constructs.1 mapFieldModel
    (MField.mk "payload" (Ann.jmap Ann.jstr Ann.jstr) true none)
    (by decide) (by decide) (by simp [offendingAnn, MField.ann])

mutual

theorem checkAnnF_mono : ∀ (f1 f2 : Nat) (a : Ann) (v : JVal), f1 ≤ f2 →
    checkAnnF f1 a v = true → checkAnnF f2 a v = true
  | 0, _, _, _ => by intro _ h; simp [checkAnnF] at h
  | Nat.succ n1, f2, a, v => by
      intro hle h
      cases f2 with
      | zero => omega
      | succ n2 =>
          have hle' : n1 ≤ n2 := by omega
          cases a <;> cases v <;> simp only [checkAnnF] at h ⊢ <;>
            first
              | exact h
              | exact checkArrF_mono n1 n2 _ _ hle' h
              | exact checkModelF_mono n1 n2 _ _ hle' h
              | exact checkUnionAnyF_mono n1 n2 _ _ hle' h

theorem checkArrF_mono : ∀ (f1 f2 : Nat) (item : Ann) (xs : JArr), f1 ≤ f2 →
    checkArrF f1 item xs = true → checkArrF f2 item xs = true
  | 0, _, _, _ => by intro _ h; simp [checkArrF] at h
  | Nat.succ n1, f2, item, xs => by
      intro hle h
      cases f2 with
      | zero => omega
      | succ n2 =>
          have hle' : n1 ≤ n2 := by omega
          cases xs with
          | nil => simp [checkArrF]
          | cons x rest =>
              simp only [checkArrF, Bool.and_eq_true] at h ⊢
              exact ⟨checkAnnF_mono n1 n2 _ _ hle' h.1,
                checkArrF_mono n1 n2 _ _ hle' h.2⟩

theorem checkUnionAnyF_mono : ∀ (f1 f2 : Nat) (args : AnnList) (v : JVal),
    f1 ≤ f2 → checkUnionAnyF f1 args v = true → checkUnionAnyF f2 args v = true
  | 0, _, _, _ => by intro _ h; simp [checkUnionAnyF] at h
  | Nat.succ n1, f2, args, v => by
      intro hle h
      cases f2 with
      | zero => omega
      | succ n2 =>
          have hle' : n1 ≤ n2 := by omega
          cases args with
          | nil => simp [checkUnionAnyF] at h
          | cons a rest =>
              simp only [checkUnionAnyF, Bool.or_eq_true] at h ⊢
              rcases h with h | h
              · exact Or.inl (checkAnnF_mono n1 n2 _ _ hle' h)
              · exact Or.inr (checkUnionAnyF_mono n1 n2 _ _ hle' h)

theorem checkModelF_mono : ∀ (f1 f2 : Nat) (m : MModel) (v : JVal), f1 ≤ f2 →
    checkModelF f1 m v = true → checkModelF f2 m v = true
  | 0, _, _, _ => by intro _ h; simp [checkModelF] at h
  | Nat.succ n1, f2, m, v => by
      intro hle h
      cases f2 with
      | zero => omega
      | succ n2 =>
          have hle' : n1 ≤ n2 := by omega
          cases v <;> simp only [checkModelF] at h ⊢ <;>
            first
              | exact h
              | exact checkFieldsF_mono n1 n2 _ _ hle' h

theorem checkFieldsF_mono : ∀ (f1 f2 : Nat) (fs : MFields) (kvs : JObj),
    f1 ≤ f2 → checkFieldsF f1 fs kvs = true → checkFieldsF f2 fs kvs = true
  | 0, _, _, _ => by intro _ h; simp [checkFieldsF] at h
  | Nat.succ n1, f2, fs, kvs => by
      intro hle h
      cases f2 with
      | zero => omega
      | succ n2 =>
          have hle' : n1 ≤ n2 := by omega
          cases fs with
          | nil => cases kvs <;> simp_all [checkFieldsF]
          | cons f0 rest =>
              cases f0 with
              | mk fname fann freq fdef =>
                cases kvs with
                | nil => simp [checkFieldsF] at h
                | cons k v krest =>
                    simp only [checkFieldsF, Bool.and_eq_true] at h ⊢
                    refine ⟨⟨h.1.1, ?_⟩, checkFieldsF_mono n1 n2 _ _ hle' h.2⟩
                    by_cases hd : strEndsWith fname "_discriminator" = true
                    · rw [if_pos hd] at h ⊢; exact h.1.2
                    · rw [if_neg hd] at h ⊢
                      exact checkAnnF_mono n1 n2 _ _ hle' h.1.2

end

theorem JObj.appendO_nil : ∀ o : JObj, JObj.appendO o JObj.nil = o
  | JObj.nil => rfl
  | JObj.cons k v rest => congrArg (JObj.cons k v) (JObj.appendO_nil rest)

theorem JObj.appendO_assoc : ∀ a b c : JObj,
    JObj.appendO (JObj.appendO a b) c = JObj.appendO a (JObj.appendO b c)
  | JObj.nil, _, _ => rfl
  | JObj.cons k v rest, b, c => congrArg (JObj.cons k v) (JObj.appendO_assoc rest b c)

theorem objKeys_appendO : ∀ a b : JObj,
    objKeys (JObj.appendO a b) = objKeys a ++ objKeys b
  | JObj.nil, _ => rfl
  | JObj.cons k v rest, b => by
      simp [JObj.appendO, objKeys, objKeys_appendO rest b]

theorem JObj.insert_fresh : ∀ (o : JObj) (k : String) (v : JVal),
    k ∉ objKeys o → JObj.insert o k v = JObj.appendO o (JObj.cons k v JObj.nil)
  | JObj.nil, k, v, _ => rfl
  | JObj.cons k0 w rest, k, v, h => by
      simp only [objKeys, List.mem_cons, not_or] at h
      simp only [JObj.insert, JObj.appendO]
      rw [if_neg (fun hh => h.1 hh.symm), JObj.insert_fresh rest k v h.2]

theorem JObj.get_no_key : ∀ (o : JObj) (k : String),
    k ∉ objKeys o → JObj.get o k = none
  | JObj.nil, _, _ => rfl
  | JObj.cons k0 w rest, k, h => by
      simp only [objKeys, List.mem_cons, not_or] at h
      simp only [JObj.get]
      rw [if_neg (fun hh => h.1 hh.symm), JObj.get_no_key rest k h.2]

theorem fieldTransformAnn_no_key : ∀ (fs : MFields) (k : String),
    k ∉ fieldNames fs → fieldTransformAnn fs k = none
  | MFields.nil, _, _ => rfl
  | MFields.cons (MField.mk fname fann freq fdef) rest, k, h => by
      simp only [fieldNames, List.mem_cons, not_or] at h
      have hne : fname ≠ k := fun hh => h.1 hh.symm
      simp [fieldTransformAnn, fieldTransformAnn_no_key rest k h.2, hne]

theorem fieldTransformAnn_cons_ne (fname : String) (fann : Ann) (freq : Bool)
    (fdef : Option JVal) (rest : MFields) (k : String) (h : fname ≠ k) :
    fieldTransformAnn (MFields.cons (MField.mk fname fann freq fdef) rest) k =
      fieldTransformAnn rest k := by
  simp only [fieldTransformAnn]
  cases hr : fieldTransformAnn rest k with
  | some a => rfl
  | none => simp [h]

theorem checkFieldsF_keys : ∀ (fuel : Nat) (fs : MFields) (kvs : JObj),
    checkFieldsF fuel fs kvs = true → objKeys kvs = fieldNames fs
  | 0, _, _ => by intro h; simp [checkFieldsF] at h
  | Nat.succ fuel, MFields.nil, JObj.nil => by intro _; rfl
  | Nat.succ fuel, MFields.nil, JObj.cons _ _ _ => by
      intro h; simp [checkFieldsF] at h
  | Nat.succ fuel, MFields.cons (MField.mk fname fann freq fdef) fs, JObj.nil => by
      intro h; simp [checkFieldsF] at h
  | Nat.succ fuel, MFields.cons (MField.mk fname fann freq fdef) fs,
      JObj.cons k v rest => by
      intro h
      simp only [checkFieldsF, Bool.and_eq_true, decide_eq_true_eq] at h
      simp only [objKeys, fieldNames]
      rw [h.1.1, checkFieldsF_keys fuel fs rest h.2]

theorem discValueFields_mem : ∀ (fs : MFields) (t : String),
    goodFields fs = true → discValueFields fs = some t →
    "tool_name_discriminator" ∈ fieldNames fs
  | MFields.nil, t, _, hd => by simp [discValueFields] at hd
  | MFields.cons (MField.mk fname fann freq fdef) rest, t, hg, hd => by
      simp only [goodFields, Bool.and_eq_true] at hg
      simp only [discValueFields] at hd
      cases hr : discValueFields rest with
      | some t2 =>
          exact List.mem_cons_of_mem _ (discValueFields_mem rest t2 hg.2 hr)
      | none =>
          rw [hr] at hd
          by_cases hdisc : strEndsWith fname "_discriminator" = true
          · rw [if_pos hdisc] at hd
            have h1 := hg.1
            rw [if_pos hdisc] at h1
            simp only [Bool.and_eq_true, decide_eq_true_eq] at h1
            simp [fieldNames, h1.1]
          · rw [if_neg hdisc] at hd
            simp at hd

theorem checkFields_disc_get : ∀ (fuel : Nat) (fs : MFields) (kvs : JObj) (t : String),
    goodFields fs = true → (fieldNames fs).Nodup →
    discValueFields fs = some t → checkFieldsF fuel fs kvs = true →
    JObj.get kvs "tool_name_discriminator" = some (JVal.str t)
  | 0, _, _, _ => by intro _ _ _ h; simp [checkFieldsF] at h
  | Nat.succ fuel, MFields.nil, kvs, t => by
      intro _ _ hd _; simp [discValueFields] at hd
  | Nat.succ fuel, MFields.cons (MField.mk fname fann freq fdef) rest, JObj.nil, t => by
      intro _ _ _ h; simp [checkFieldsF] at h
  | Nat.succ fuel, MFields.cons (MField.mk fname fann freq fdef) rest,
      JObj.cons k v krest, t => by
      intro hg hnd hd hc
      simp only [goodFields, Bool.and_eq_true] at hg
      simp only [fieldNames, List.nodup_cons] at hnd
      simp only [checkFieldsF, Bool.and_eq_true, decide_eq_true_eq] at hc
      simp only [discValueFields] at hd
      cases hr : discValueFields rest with
      | some t2 =>
          rw [hr] at hd
          have ht : t2 = t := by injection hd
          have hmem := discValueFields_mem rest t2 hg.2 hr
          have hne : fname ≠ "tool_name_discriminator" := fun he => hnd.1 (he ▸ hmem)
          have hkne : k ≠ "tool_name_discriminator" := by rw [hc.1.1]; exact hne
          simp only [JObj.get]
          rw [if_neg hkne]
          exact checkFields_disc_get fuel rest krest t hg.2 hnd.2 (ht ▸ hr) hc.2
      | none =>
          rw [hr] at hd
          by_cases hdisc : strEndsWith fname "_discriminator" = true
          · rw [if_pos hdisc] at hd
            have h1 := hg.1
            rw [if_pos hdisc] at h1
            simp only [Bool.and_eq_true, decide_eq_true_eq] at h1
            have h2 := hc.1.2
            rw [if_pos hdisc] at h2
            simp only [decide_eq_true_eq] at h2
            cases fdef with
            | none => simp [Option.map] at hd
            | some dv =>
                cases dv with
                | str t0 =>
                    simp only [Option.map, pyStr] at hd
                    have ht0 : t0 = t := by injection hd
                    have hv : JVal.str t0 = v := by injection h2
                    have hkeq : k = "tool_name_discriminator" := by
                      rw [hc.1.1, h1.1]
                    simp only [JObj.get]
                    rw [if_pos hkeq, ← hv, ht0]
                | null => simp at h1
                | bool b => simp at h1
                | num n => simp at h1
                | arr xs => simp at h1
                | obj kvs2 => simp at h1
          · rw [if_neg hdisc] at hd
            simp at hd

theorem lookupVariantByTag_none : ∀ (ms : List MModel) (t : String),
    (∀ m2, m2 ∈ ms → modelDiscValue m2 ≠ some t) → lookupVariantByTag ms t = none
  | [], _, _ => rfl
  | m0 :: rest, t, h => by
      simp only [lookupVariantByTag]
      rw [lookupVariantByTag_none rest t (fun m2 hm => h m2 (List.mem_cons_of_mem _ hm))]
      simp [h m0 (List.mem_cons_self _ _)]

theorem lookupVariantByTag_nodup : ∀ (ms : List MModel) (m : MModel) (t : String),
    (ms.map modelDiscValue).Nodup → m ∈ ms → modelDiscValue m = some t →
    lookupVariantByTag ms t = some m
  | [], _, _, _, hm, _ => absurd hm (List.not_mem_nil _)
  | m0 :: rest, m, t, hnd, hm, hv => by
      simp only [List.map, List.nodup_cons] at hnd
      rcases List.mem_cons.mp hm with he | hmem
      · subst he
        have hrest : ∀ m2, m2 ∈ rest → modelDiscValue m2 ≠ some t := by
          intro m2 hm2 he2
          apply hnd.1
          rw [hv, ← he2]
          exact List.mem_map_of_mem _ hm2
        simp only [lookupVariantByTag]
        rw [lookupVariantByTag_none rest t hrest]
        simp [hv]
      · simp only [lookupVariantByTag]
        rw [lookupVariantByTag_nodup rest m t hnd.2 hmem hv]

theorem mem_unionVariantsD : ∀ (args : AnnList) (m : MModel),
    Ann.jmodel m ∈ args.toList → m ∈ unionVariantsD args
  | AnnList.nil, m, h => absurd h (List.not_mem_nil _)
  | AnnList.cons a rest, m, h => by
      simp only [AnnList.toList, List.mem_cons] at h
      rcases h with he | hmem
      · rw [← he]
        simp [unionVariantsD]
      · cases a <;>
          first
            | exact List.mem_cons_of_mem _ (mem_unionVariantsD rest m hmem)
            | exact mem_unionVariantsD rest m hmem

theorem goodUnionArgs_mem : ∀ (args : AnnList) (a : Ann),
    goodUnionArgs args = true → a ∈ args.toList →
    ∃ m, a = Ann.jmodel m ∧ goodModel m = true ∧
      ∃ t, modelDiscValue m = some t ∧ t ≠ ""
  | AnnList.nil, a, _, hm => absurd hm (List.not_mem_nil _)
  | AnnList.cons a0 rest, a, hg, hm => by
      cases a0
      case jmodel m0 =>
        simp only [goodUnionArgs, Bool.and_eq_true] at hg
        simp only [AnnList.toList, List.mem_cons] at hm
        rcases hm with he | hmem
        · have h2 := hg.1.2
          cases hv : modelDiscValue m0 with
          | none => rw [hv] at h2; simp at h2
          | some t =>
              rw [hv] at h2
              simp only [decide_eq_true_eq] at h2
              exact ⟨m0, he, hg.1.1, t, hv, h2⟩
        · exact goodUnionArgs_mem rest a hg.2 hmem
      all_goals simp [goodUnionArgs] at hg

theorem checkUnionAnyF_exists : ∀ (fuel : Nat) (args : AnnList) (v : JVal),
    checkUnionAnyF fuel args v = true →
    ∃ a, a ∈ args.toList ∧ checkAnnF fuel a v = true
  | 0, _, _ => by intro h; simp [checkUnionAnyF] at h
  | Nat.succ fuel, AnnList.nil, v => by intro h; simp [checkUnionAnyF] at h
  | Nat.succ fuel, AnnList.cons a rest, v => by
      intro h
      simp only [checkUnionAnyF, Bool.or_eq_true] at h
      rcases h with h | h
      · exact ⟨a, List.mem_cons_self _ _,
          checkAnnF_mono fuel (Nat.succ fuel) a v (Nat.le_succ _) h⟩
      · rcases checkUnionAnyF_exists fuel rest v h with ⟨a2, hmem, hc⟩
        exact ⟨a2, List.mem_cons_of_mem _ hmem,
          checkAnnF_mono fuel (Nat.succ fuel) a2 v (Nat.le_succ _) hc⟩

theorem checkModelF_shape : ∀ (fuel : Nat) (m : MModel) (v : JVal),
    checkModelF fuel m v = true →
    ∃ f2 kvs, fuel = Nat.succ f2 ∧ v = JVal.obj kvs ∧
      checkFieldsF f2 m.fields kvs = true
  | 0, _, _ => by intro h; simp [checkModelF] at h
  | Nat.succ f2, m, JVal.obj kvs => by
      intro h
      exact ⟨f2, kvs, rfl, rfl, by simpa [checkModelF] using h⟩
  | Nat.succ f2, m, JVal.null => by intro h; simp [checkModelF] at h
  | Nat.succ f2, m, JVal.bool b => by intro h; simp [checkModelF] at h
  | Nat.succ f2, m, JVal.num n => by intro h; simp [checkModelF] at h
  | Nat.succ f2, m, JVal.str s => by intro h; simp [checkModelF] at h
  | Nat.succ f2, m, JVal.arr xs => by intro h; simp [checkModelF] at h

theorem goodModel_eq : ∀ m : MModel,
    goodModel m = (goodFields m.fields && decide ((fieldNames m.fields).Nodup) &&
      decide ("kind" ∉ fieldNames m.fields))
  | MModel.mk n fs => rfl

/-! The round-trip core: on the well-behaved model class, the compiled
transform closures are the identity on every payload that passes
validation — proved in fuel lockstep with the `check` family. -/

mutual

theorem transformAnnF_rt : ∀ (fuel : Nat) (a : Ann) (v : JVal),
    goodAnn a = true → checkAnnF fuel a v = true →
    transformAnnF fuel a v = Except.ok v
  | 0, _, _ => by intro _ h; simp [checkAnnF] at h
  | Nat.succ fuel, a, v => by
      intro hg hc
      cases a with
      | jstr => cases v <;> simp_all [checkAnnF, transformAnnF]
      | jint => cases v <;> simp_all [checkAnnF, transformAnnF]
      | jfloat => cases v <;> simp_all [checkAnnF, transformAnnF]
      | jbool => cases v <;> simp_all [checkAnnF, transformAnnF]
      | jenum vals => cases v <;> simp_all [checkAnnF, transformAnnF]
      | jlit vals => cases v <;> simp_all [checkAnnF, transformAnnF]
      | jnone => simp [goodAnn] at hg
      | jmap ka va => simp [goodAnn] at hg
      | jtuple items => simp [goodAnn] at hg
      | jlist item =>
          cases v with
          | arr xs =>
              simp only [checkAnnF] at hc
              have hgi : goodAnn item = true := by simpa [goodAnn] using hg
              by_cases ht : hasTransform item = true
              · have h1 := transformArrF_rt fuel item xs hgi hc
                simp [transformAnnF, ht, h1]
              · simp [transformAnnF, ht]
          | null => simp [checkAnnF] at hc
          | bool b => simp [checkAnnF] at hc
          | num n => simp [checkAnnF] at hc
          | str s => simp [checkAnnF] at hc
          | obj kvs => simp [checkAnnF] at hc
      | jmodel m =>
          simp only [checkAnnF] at hc
          rcases checkModelF_shape fuel m v hc with ⟨f2, kvs, hf, hv, hcf⟩
          subst hv
          have hgm : goodModel m = true := by simpa [goodAnn] using hg
          have h1 := transformModelF_rt fuel m (JVal.obj kvs) hgm hc
          simpa [transformAnnF] using h1
      | junion args =>
          simp only [checkAnnF] at hc
          have h1 := transformUnionF_rt fuel args v hg hc
          simpa [transformAnnF] using h1

theorem transformArrF_rt : ∀ (fuel : Nat) (item : Ann) (xs : JArr),
    goodAnn item = true → checkArrF fuel item xs = true →
    transformArrF fuel item xs = Except.ok xs
  | 0, _, _ => by intro _ h; simp [checkArrF] at h
  | Nat.succ fuel, item, JArr.nil => by intro _ _; rfl
  | Nat.succ fuel, item, JArr.cons x rest => by
      intro hg hc
      simp only [checkArrF, Bool.and_eq_true] at hc
      have h1 := transformAnnF_rt fuel item x hg hc.1
      have h2 := transformArrF_rt fuel item rest hg hc.2
      simp only [transformArrF, h1, h2]
      rfl

theorem transformUnionF_rt : ∀ (fuel : Nat) (args : AnnList) (v : JVal),
    goodAnn (Ann.junion args) = true → checkUnionAnyF fuel args v = true →
    transformUnionF fuel args v = Except.ok v
  | 0, _, _ => by intro _ h; simp [checkUnionAnyF] at h
  | Nat.succ fuel, args, v => by
      intro hgu hc
      have hg : (goodUnionArgs args = true ∧ 2 ≤ args.countNonNone) ∧
          ((unionVariantsD args).map modelDiscValue).Nodup := by
        simpa [goodAnn, Bool.and_eq_true, decide_eq_true_eq] using hgu
      rcases checkUnionAnyF_exists (Nat.succ fuel) args v hc with ⟨a, hmem, hca⟩
      rcases goodUnionArgs_mem args a hg.1.1 hmem with ⟨mi, hae, hgmi, t, ht, hte⟩
      subst hae
      simp only [checkAnnF] at hca
      rcases checkModelF_shape fuel mi v hca with ⟨f3, kvs, hf, hv, hcf⟩
      subst hv
      cases args with
      | nil => exact absurd hmem (List.not_mem_nil _)
      | cons a0 rest =>
          cases a0
          case jmodel m0 =>
            have hrest : ¬ (rest.countNonNone = 0) := by
              have h2 := hg.1.2
              simp only [AnnList.countNonNone] at h2
              omega
            have hkeys : objKeys kvs = fieldNames mi.fields :=
              checkFieldsF_keys f3 mi.fields kvs hcf
            have hgm := hgmi
            rw [goodModel_eq mi] at hgm
            simp only [Bool.and_eq_true, decide_eq_true_eq] at hgm
            have hkind : JObj.get kvs "kind" = none := by
              apply JObj.get_no_key
              rw [hkeys]
              exact hgm.2
            have hdisc : JObj.get kvs "tool_name_discriminator" = some (JVal.str t) :=
              checkFields_disc_get f3 mi.fields kvs t hgm.1.1 hgm.1.2 ht hcf
            have hmi_mem : mi ∈ unionVariantsD (AnnList.cons (Ann.jmodel m0) rest) :=
              mem_unionVariantsD _ mi hmem
            have hlook := lookupVariantByTag_nodup _ mi t hg.2 hmi_mem ht
            have hrn : renameKey kvs "kind" "tool_name_discriminator" = kvs := by
              simp [renameKey, hkind]
            have h1 := transformModelF_rt fuel mi (JVal.obj kvs) hgmi hca
            simp [transformUnionF, hrest, hkind, hdisc, hlook, hrn, h1]
          all_goals simp [goodUnionArgs] at hg

theorem transformModelF_rt : ∀ (fuel : Nat) (m : MModel) (v : JVal),
    goodModel m = true → checkModelF fuel m v = true →
    transformModelF fuel m v = Except.ok v
  | 0, _, _ => by intro _ h; simp [checkModelF] at h
  | Nat.succ fuel, m, v => by
      intro hg hc
      rcases checkModelF_shape (Nat.succ fuel) m v hc with ⟨f2, kvs, hf, hv, hcf⟩
      have hff : fuel = f2 := Nat.succ.inj hf
      subst hff
      subst hv
      rw [goodModel_eq m] at hg
      simp only [Bool.and_eq_true, decide_eq_true_eq] at hg
      have he := transformEntriesF_rt fuel m m.fields kvs JObj.nil hg.1.1 hg.1.2
        (fun k _ => rfl) (fun k hk hke => hg.2 (hke ▸ hk))
        (fun k _ hk => absurd hk (List.not_mem_nil k)) hcf
      simp [transformModelF, he, JObj.appendO]

theorem transformEntriesF_rt : ∀ (fuel : Nat) (m : MModel) (fs : MFields)
    (kvs acc : JObj),
    goodFields fs = true →
    (fieldNames fs).Nodup →
    (∀ k, k ∈ fieldNames fs → fieldTransformAnn m.fields k = fieldTransformAnn fs k) →
    (∀ k, k ∈ fieldNames fs → k ≠ "kind") →
    (∀ k, k ∈ fieldNames fs → k ∉ objKeys acc) →
    checkFieldsF fuel fs kvs = true →
    transformEntriesF fuel m kvs acc = Except.ok (JObj.appendO acc kvs)
  | 0, _, _, _, _ => by intro _ _ _ _ _ h; simp [checkFieldsF] at h
  | Nat.succ fuel, m, fs, kvs, acc => by
      intro hgf hnd hA hK hF hc
      cases fs with
      | nil =>
          cases kvs with
          | nil => simp [transformEntriesF, JObj.appendO_nil]
          | cons k v rest => simp [checkFieldsF] at hc
      | cons f0 frest =>
          cases f0 with
          | mk fname fann freq fdef =>
            cases kvs with
            | nil => simp [checkFieldsF] at hc
            | cons k v krest =>
                simp only [checkFieldsF, Bool.and_eq_true, decide_eq_true_eq] at hc
                have hkf : k = fname := hc.1.1
                have hkmem : k ∈ fieldNames
                    (MFields.cons (MField.mk fname fann freq fdef) frest) := by
                  simp [fieldNames, hkf]
                have hknk : ¬ (k = "kind") := hK k hkmem
                simp only [fieldNames, List.nodup_cons] at hnd
                simp only [goodFields, Bool.and_eq_true] at hgf
                have hfta : fieldTransformAnn m.fields k =
                    (if strEndsWith fname "_discriminator" then none
                     else if hasTransform fann then some fann else none) := by
                  rw [hA k hkmem]
                  simp only [fieldTransformAnn]
                  rw [fieldTransformAnn_no_key frest k (by rw [hkf]; exact hnd.1)]
                  by_cases hdisc : strEndsWith fname "_discriminator" = true
                  · simp [hdisc]
                  · simp [hdisc, hkf]
                have hA2 : ∀ k2, k2 ∈ fieldNames frest →
                    fieldTransformAnn m.fields k2 = fieldTransformAnn frest k2 := by
                  intro k2 hk2
                  rw [hA k2 (by simp [fieldNames]; exact Or.inr hk2)]
                  exact fieldTransformAnn_cons_ne fname fann freq fdef frest k2
                    (fun he => hnd.1 (by rw [he]; exact hk2))
                have hK2 : ∀ k2, k2 ∈ fieldNames frest → k2 ≠ "kind" :=
                  fun k2 hk2 => hK k2 (by simp [fieldNames]; exact Or.inr hk2)
                have hF2 : ∀ k2, k2 ∈ fieldNames frest →
                    k2 ∉ objKeys (JObj.appendO acc (JObj.cons k v JObj.nil)) := by
                  intro k2 hk2
                  rw [objKeys_appendO]
                  simp only [objKeys, List.mem_append, List.mem_cons,
                    List.not_mem_nil, or_false, not_or]
                  constructor
                  · exact hF k2 (by simp [fieldNames]; exact Or.inr hk2)
                  · intro he
                    exact hnd.1 (by rw [← hkf, ← he]; exact hk2)
                have hih := transformEntriesF_rt fuel m frest krest
                  (JObj.appendO acc (JObj.cons k v JObj.nil)) hgf.2 hnd.2 hA2 hK2 hF2 hc.2
                rw [JObj.appendO_assoc] at hih
                simp only [JObj.appendO] at hih
                have hins : JObj.insert acc k v =
                    JObj.appendO acc (JObj.cons k v JObj.nil) :=
                  JObj.insert_fresh acc k v (hF k hkmem)
                by_cases hdisc : strEndsWith fname "_discriminator" = true
                · have hfta2 : fieldTransformAnn m.fields k = none := by
                    rw [hfta, if_pos hdisc]
                  simp only [transformEntriesF, hknk, hfta2, if_false, ite_false]
                  show transformEntriesF fuel m krest (JObj.insert acc k v) = _
                  rw [hins, hih]
                · have hcheck : checkAnnF fuel fann v = true := by
                    have h2 := hc.1.2; rwa [if_neg hdisc] at h2
                  have hgood : goodAnn fann = true := by
                    have h2 := hgf.1; rwa [if_neg hdisc] at h2
                  by_cases htr : hasTransform fann = true
                  · have hfta2 : fieldTransformAnn m.fields k = some fann := by
                      rw [hfta, if_neg hdisc, if_pos htr]
                    have hta := transformAnnF_rt fuel fann v hgood hcheck
                    simp only [transformEntriesF, hknk, hfta2, hta, if_false, ite_false]
                    show transformEntriesF fuel m krest (JObj.insert acc k v) = _
                    rw [hins, hih]
                  · have hfta2 : fieldTransformAnn m.fields k = none := by
                      rw [hfta, if_neg hdisc, if_neg htr]
                    simp only [transformEntriesF, hknk, hfta2, if_false, ite_false]
                    show transformEntriesF fuel m krest (JObj.insert acc k v) = _
                    rw [hins, hih]

end

/-- Witness for C9 (amended) at a concrete registry holding an agent in
the `RESEARCHING` state. -/
theorem C9_witness :
    (provide_clarification_endpoint
        [("agent1", { context := { state := AgentStatesEnum.researching } })]
        "agent1" { stream := true, messages := [{ role := "user", content := "x" }] }).1 =
      Except.ok 200 :=
  ((C9_endpoint_no_state_check
      [("agent1", { context := { state := AgentStatesEnum.researching } })]
      "agent1" { stream := true, messages := [{ role := "user", content := "x" }] }
      "x" ("agent1", { context := { state := AgentStatesEnum.researching } })
      rfl rfl).2 (by decide)).1

theorem skipWS_cons (c : Char) (cs : List Char) (h : isJsonWS c = false) :
    skipWS (c :: cs) = c :: cs := by simp [skipWS, h]

theorem isDigit_not_ws (c : Char) (h : c.isDigit = true) : isJsonWS c = false := by
  cases hc : isJsonWS c
  · rfl
  · exfalso
    simp only [isJsonWS, Bool.or_eq_true, decide_eq_true_eq] at hc
    rcases hc with ((h1 | h1) | h1) | h1 <;> (subst h1; exact absurd h (by decide))

theorem digitChar_isDigit (d : Nat) (h : d < 10) : (digitChar d).isDigit = true := by
  interval_cases d <;> decide

theorem digitChar_toNat (d : Nat) (h : d < 10) : (digitChar d).toNat = 48 + d := by
  interval_cases d <;> decide

theorem digitChar_goodHead (d : Nat) (h : d < 10) : goodHead (digitChar d) = true := by
  interval_cases d <;> decide

theorem parseStrChars_rt : ∀ (cs ys : List Char),
    cs.all wfChar = true → parseStrChars (cs ++ '"' :: ys) = some (cs, ys)
  | [], ys, _ => rfl
  | c :: cs, ys, h => by
      simp only [List.all_cons, Bool.and_eq_true] at h
      have hw := h.1
      simp only [wfChar, Bool.and_eq_true, Bool.not_eq_true', decide_eq_false_iff_not] at hw
      simp only [List.cons_append, parseStrChars, List.append_eq]
      rw [if_neg hw.1, if_neg hw.2, parseStrChars_rt cs ys h.2]

theorem takeDigits_digits : ∀ (ds ys : List Char),
    (∀ c, c ∈ ds → c.isDigit = true) →
    (∀ c, ys.head? = some c → c.isDigit = false) →
    takeDigits (ds ++ ys) = (ds, ys)
  | [], ys, _, hy => by
      cases ys with
      | nil => rfl
      | cons c cs =>
          have h1 := hy c rfl
          simp [takeDigits, h1]
  | d :: ds, ys, hd, hy => by
      have h1 : d.isDigit = true := hd d (List.mem_cons_self _ _)
      have h2 := takeDigits_digits ds ys (fun c hc => hd c (List.mem_cons_of_mem _ hc)) hy
      simp [takeDigits, h1, h2]

theorem natDigitsGo_all_digits : ∀ (fuel n : Nat) (c : Char),
    c ∈ natDigitsGo fuel n → c.isDigit = true
  | 0, n, c => by intro hc; simp [natDigitsGo] at hc
  | Nat.succ fuel, n, c => by
      intro hc
      simp only [natDigitsGo] at hc
      by_cases h : n < 10
      · rw [if_pos h] at hc
        simp only [List.mem_singleton] at hc
        subst hc
        exact digitChar_isDigit n h
      · rw [if_neg h] at hc
        simp only [List.mem_append, List.mem_singleton] at hc
        rcases hc with hc | hc
        · exact natDigitsGo_all_digits fuel (n / 10) c hc
        · subst hc
          exact digitChar_isDigit (n % 10) (Nat.mod_lt n (by omega))

theorem natDigitsGo_head : ∀ (fuel n : Nat), 0 < fuel →
    ∃ d ds, natDigitsGo fuel n = digitChar d :: ds ∧ d < 10
  | 0, _, h => absurd h (by omega)
  | Nat.succ fuel, n, _ => by
      simp only [natDigitsGo]
      by_cases h : n < 10
      · rw [if_pos h]
        exact ⟨n, [], rfl, h⟩
      · rw [if_neg h]
        cases hgo : natDigitsGo fuel (n / 10) with
        | nil => exact ⟨n % 10, [], rfl, Nat.mod_lt n (by omega)⟩
        | cons c ds =>
            cases fuel with
            | zero => simp [natDigitsGo] at hgo
            | succ f2 =>
                rcases natDigitsGo_head (Nat.succ f2) (n / 10) (by omega) with
                  ⟨d, ds2, hdg, hlt⟩
                rw [hgo] at hdg
                injection hdg with hc2 hds2
                subst hc2
                subst hds2
                exact ⟨d, ds ++ [digitChar (n % 10)], rfl, hlt⟩

theorem digitsToNat_append_one : ∀ (xs : List Char) (acc : Nat) (c : Char),
    digitsToNat acc (xs ++ [c]) = (digitsToNat acc xs) * 10 + (c.toNat - 48)
  | [], acc, c => rfl
  | x :: xs, acc, c => digitsToNat_append_one xs (acc * 10 + (x.toNat - 48)) c

theorem natDigitsGo_correct : ∀ (fuel n acc : Nat), n < fuel →
    digitsToNat acc (natDigitsGo fuel n) =
      acc * 10 ^ (natDigitsGo fuel n).length + n
  | 0, n, acc, h => absurd h (by omega)
  | Nat.succ fuel, n, acc, h => by
      simp only [natDigitsGo]
      by_cases h10 : n < 10
      · rw [if_pos h10]
        have h1 : digitsToNat acc [digitChar n] =
            acc * 10 + ((digitChar n).toNat - 48) := rfl
        rw [h1, digitChar_toNat n h10]
        simp only [List.length_singleton, pow_one]
        omega
      · rw [if_neg h10]
        have hdiv : n / 10 < n := Nat.div_lt_self (by omega) (by omega)
        have hrec := natDigitsGo_correct fuel (n / 10) acc (by omega)
        rw [digitsToNat_append_one, hrec,
          digitChar_toNat (n % 10) (Nat.mod_lt n (by omega))]
        rw [List.length_append, List.length_singleton, pow_succ,
          Nat.add_sub_cancel_left, Nat.add_mul, Nat.mul_assoc, Nat.add_assoc]
        congr 1
        omega

theorem natToChars_all_digits (n : Nat) :
    ∀ c, c ∈ natToChars n → c.isDigit = true :=
  fun c hc => natDigitsGo_all_digits (n + 1) n c hc

theorem natToChars_head (n : Nat) :
    ∃ d ds, natToChars n = digitChar d :: ds ∧ d < 10 :=
  natDigitsGo_head (n + 1) n (by omega)

theorem natToChars_correct (n : Nat) : digitsToNat 0 (natToChars n) = n := by
  have h := natDigitsGo_correct (n + 1) n 0 (by omega)
  simpa [natToChars] using h

theorem natToChars_ne_nil (n : Nat) : natToChars n ≠ [] := by
  rcases natToChars_head n with ⟨d, ds, hd, _⟩
  rw [hd]
  simp

theorem head_cons_nondigit (r : Char) (h : r.isDigit = false) (ys : List Char) :
    ∀ c, ((r :: ys).head? = some c) → c.isDigit = false := by
  intro c hc
  simp only [List.head?_cons, Option.some.injEq] at hc
  rw [← hc]
  exact h

theorem parseVal_quote (fuel : Nat) (cs : List Char) :
    parseVal (Nat.succ fuel) ('"' :: cs) =
      (match parseStrChars cs with
       | some (scs, rest) => some (JVal.str (String.mk scs), rest)
       | none => none) := rfl

theorem parseVal_dash (fuel : Nat) (cs : List Char) :
    parseVal (Nat.succ fuel) ('-' :: cs) =
      (if (takeDigits cs).1.isEmpty then none
       else some (JVal.num (-(digitsToNat 0 (takeDigits cs).1 : Int)),
         (takeDigits cs).2)) := rfl

theorem parseVal_digit (fuel : Nat) (c : Char) (cs : List Char) (h : c.isDigit = true) :
    parseVal (Nat.succ fuel) (c :: cs) =
      some (JVal.num (digitsToNat 0 (takeDigits (c :: cs)).1 : Int),
        (takeDigits (c :: cs)).2) := by
  have hws : isJsonWS c = false := isDigit_not_ws c h
  simp [parseVal, skipWS, hws, h]

theorem printJVal_head : ∀ v : JVal, ∃ c cs2,
    printJVal v = c :: cs2 ∧ goodHead c = true
  | JVal.null => ⟨'n', _, rfl, by decide⟩
  | JVal.bool true => ⟨'t', _, rfl, by decide⟩
  | JVal.bool false => ⟨'f', _, rfl, by decide⟩
  | JVal.num n => by
      by_cases hneg : n < 0
      · exact ⟨'-', natToChars (-n).toNat,
          by simp [printJVal, intToChars, hneg], by decide⟩
      · rcases natToChars_head n.toNat with ⟨d, ds, hd, hlt⟩
        exact ⟨digitChar d, ds, by simp [printJVal, intToChars, hneg, hd],
          digitChar_goodHead d hlt⟩
  | JVal.str s => ⟨'"', _, rfl, by decide⟩
  | JVal.arr xs => ⟨'[', _, rfl, by decide⟩
  | JVal.obj kvs => ⟨lbrace, _, rfl, by decide⟩

theorem pvNeed_pos : ∀ v : JVal, 1 ≤ pvNeed v
  | JVal.null => by simp [pvNeed]
  | JVal.bool b => by simp [pvNeed]
  | JVal.num n => by simp [pvNeed]
  | JVal.str s => by simp [pvNeed]
  | JVal.arr xs => by simp [pvNeed]
  | JVal.obj kvs => by simp [pvNeed]

mutual

theorem pvNeed_le : ∀ v : JVal, pvNeed v ≤ (printJVal v).length
  | JVal.null => by simp [pvNeed, printJVal]
  | JVal.bool b => by cases b <;> simp [pvNeed, printJVal]
  | JVal.num n => by
      simp only [pvNeed, printJVal, intToChars]
      by_cases hneg : n < 0
      · rw [if_pos hneg]
        simp
      · rw [if_neg hneg]
        have hne := natToChars_ne_nil n.toNat
        cases h : natToChars n.toNat with
        | nil => exact absurd h hne
        | cons c cs => simp
  | JVal.str s => by simp [pvNeed, printJVal]
  | JVal.arr xs => by
      have h1 := paNeed_le xs
      simp only [pvNeed, printJVal, List.length_append, List.length_cons,
        List.length_singleton]
      omega
  | JVal.obj kvs => by
      have h1 := poNeed_le kvs
      simp only [pvNeed, printJVal, List.length_append, List.length_cons,
        List.length_singleton]
      omega

theorem paNeed_le : ∀ xs : JArr, paNeed xs ≤ (printJArr xs).length + 1
  | JArr.nil => by simp [paNeed, printJArr]
  | JArr.cons v JArr.nil => by
      have h1 := pvNeed_le v
      have h2 := pvNeed_pos v
      simp only [paNeed, printJArr]
      omega
  | JArr.cons v (JArr.cons y rest) => by
      have h1 := pvNeed_le v
      have h2 := paNeed_le (JArr.cons y rest)
      simp only [paNeed, printJArr, List.length_append, List.length_cons] at h2 ⊢
      omega

theorem poNeed_le : ∀ kvs : JObj, poNeed kvs ≤ (printJObj kvs).length + 1
  | JObj.nil => by simp [poNeed, printJObj]
  | JObj.cons k v JObj.nil => by
      have h1 := pvNeed_le v
      have h2 := pvNeed_pos v
      simp only [poNeed, printJObj, List.length_append, List.length_cons]
      omega
  | JObj.cons k v (JObj.cons k2 v2 rest) => by
      have h1 := pvNeed_le v
      have h2 := poNeed_le (JObj.cons k2 v2 rest)
      simp only [poNeed, printJObj, List.length_append, List.length_cons] at h2 ⊢
      omega

end

mutual

theorem parse_print : ∀ (fuel : Nat) (v : JVal) (ys : List Char),
    wfJVal v = true → (∀ c, ys.head? = some c → c.isDigit = false) →
    pvNeed v < fuel →
    parseVal fuel (printJVal v ++ ys) = some (v, ys)
  | 0, v, ys => by intro _ _ h; omega
  | Nat.succ fuel, v, ys => by
      intro hwf hys hsz
      cases v with
      | null => rfl
      | bool b => cases b <;> rfl
      | str s =>
          have hwfs : s.data.all wfChar = true := by simpa [wfJVal, wfStr] using hwf
          have hstep : printJVal (JVal.str s) ++ ys = '"' :: (s.data ++ '"' :: ys) := by
            simp [printJVal]
          rw [hstep, parseVal_quote, parseStrChars_rt s.data ys hwfs]
      | num n =>
          by_cases hneg : n < 0
          · have hstep : printJVal (JVal.num n) ++ ys =
                '-' :: (natToChars (-n).toNat ++ ys) := by
              simp [printJVal, intToChars, hneg]
            have htd : takeDigits (natToChars (-n).toNat ++ ys) =
                (natToChars (-n).toNat, ys) :=
              takeDigits_digits _ ys (natToChars_all_digits _) hys
            have hemp : (natToChars (-n).toNat).isEmpty = false := by
              rcases natToChars_head (-n).toNat with ⟨d, ds, hd, _⟩
              rw [hd]; rfl
            rw [hstep, parseVal_dash, htd]
            simp [hemp, natToChars_correct] <;> omega
          · rcases natToChars_head n.toNat with ⟨d, ds, hd, hlt⟩
            have hstep : printJVal (JVal.num n) ++ ys = digitChar d :: (ds ++ ys) := by
              simp [printJVal, intToChars, hneg, hd]
            have htd : takeDigits (digitChar d :: (ds ++ ys)) =
                (natToChars n.toNat, ys) := by
              rw [show digitChar d :: (ds ++ ys) = (digitChar d :: ds) ++ ys from rfl,
                ← hd]
              exact takeDigits_digits _ ys (natToChars_all_digits _) hys
            rw [hstep, parseVal_digit fuel (digitChar d) (ds ++ ys)
              (digitChar_isDigit d hlt), htd]
            simp [natToChars_correct] <;> omega
      | arr xs =>
          cases xs with
          | nil => rfl
          | cons x rest =>
              have hwf2 : wfJArr (JArr.cons x rest) = true := by
                simpa [wfJVal] using hwf
              have hsz2 : paNeed (JArr.cons x rest) < fuel := by
                simp only [pvNeed] at hsz; omega
              have h1 := parse_print_arr fuel (JArr.cons x rest) ys hwf2 (by simp) hsz2
              rcases printJVal_head x with ⟨c, cs2, hpx, hgh⟩
              have hgh2 : isJsonWS c = false ∧ ¬(c = ']') ∧ ¬(c = rbrace) := by
                simpa [goodHead, Bool.and_eq_true, Bool.not_eq_true',
                  decide_eq_false_iff_not, and_assoc] using hgh
              have htail : ∃ tail, printJArr (JArr.cons x rest) ++ ']' :: ys =
                  c :: tail := by
                cases rest with
                | nil => exact ⟨cs2 ++ ']' :: ys, by simp [printJArr, hpx]⟩
                | cons y r2 =>
                    exact ⟨cs2 ++ ',' :: (printJArr (JArr.cons y r2) ++ ']' :: ys),
                      by simp [printJArr, hpx]⟩
              rcases htail with ⟨tail, htail⟩
              rw [htail] at h1
              have hscs : skipWS (printJArr (JArr.cons x rest) ++ ']' :: ys) =
                  c :: tail := by
                rw [htail]; exact skipWS_cons c tail hgh2.1
              have hstep : printJVal (JVal.arr (JArr.cons x rest)) ++ ys =
                  '[' :: (printJArr (JArr.cons x rest) ++ ']' :: ys) := by
                simp [printJVal]
              have hbr0 : isJsonWS '[' = false := by decide
              have hbrd : ('[').isDigit = false := by decide
              have hbr2 : ¬('[' = '-') := by decide
              have hbr3 : ¬('[' = '"') := by decide
              rw [hstep]
              simp [parseVal, skipWS, hbr0, hbrd, hbr2, hbr3, hscs, hgh2.2.1, h1]
      | obj kvs =>
          cases kvs with
          | nil => rfl
          | cons k v rest =>
              have hwf2 : wfJObj (JObj.cons k v rest) = true := by
                simpa [wfJVal] using hwf
              have hsz2 : poNeed (JObj.cons k v rest) < fuel := by
                simp only [pvNeed] at hsz; omega
              have h1 := parse_print_obj fuel (JObj.cons k v rest) ys hwf2 (by simp) hsz2
              have htail : ∃ tail, printJObj (JObj.cons k v rest) ++ rbrace :: ys =
                  '"' :: tail := by
                cases rest with
                | nil =>
                    exact ⟨k.data ++ '"' :: ':' :: (printJVal v ++ rbrace :: ys),
                      by simp [printJObj]⟩
                | cons k2 v2 r2 =>
                    exact ⟨k.data ++ '"' :: ':' :: (printJVal v ++ ',' ::
                      (printJObj (JObj.cons k2 v2 r2) ++ rbrace :: ys)),
                      by simp [printJObj]⟩
              rcases htail with ⟨tail, htail⟩
              rw [htail] at h1
              have hscs : skipWS (printJObj (JObj.cons k v rest) ++ rbrace :: ys) =
                  '"' :: tail := by
                rw [htail]; exact skipWS_cons _ _ (by decide)
              have hlb0 : isJsonWS lbrace = false := by decide
              have hlb1 : lbrace.isDigit = false := by decide
              have hlb2 : ¬(lbrace = '-') := by decide
              have hlb3 : ¬(lbrace = '"') := by decide
              have hlb4 : ¬(lbrace = '[') := by decide
              have hqr : ¬('"' = rbrace) := by decide
              have hstep : printJVal (JVal.obj (JObj.cons k v rest)) ++ ys =
                  lbrace :: (printJObj (JObj.cons k v rest) ++ rbrace :: ys) := by
                simp [printJVal]
              rw [hstep]
              simp [parseVal, skipWS, hlb0, hlb1, hlb2, hlb3, hlb4, hscs, hqr, h1]

theorem parse_print_arr : ∀ (fuel : Nat) (xs : JArr) (ys : List Char),
    wfJArr xs = true → xs ≠ JArr.nil → paNeed xs < fuel →
    parseArrItems fuel (printJArr xs ++ ']' :: ys) = some (xs, ys)
  | 0, xs, ys => by intro _ _ h; omega
  | Nat.succ fuel, xs, ys => by
      intro hwf hne hsz
      cases xs with
      | nil => exact absurd rfl hne
      | cons x rest =>
          have hwfx : wfJVal x = true ∧ wfJArr rest = true := by
            simpa [wfJArr, Bool.and_eq_true] using hwf
          cases rest with
          | nil =>
              have hszx : pvNeed x < fuel := by
                simp only [paNeed] at hsz; omega
              have h1 := parse_print fuel x (']' :: ys) hwfx.1
                (head_cons_nondigit ']' (by decide) ys) hszx
              have hpr : printJArr (JArr.cons x JArr.nil) ++ ']' :: ys =
                  printJVal x ++ ']' :: ys := rfl
              have harr0 : isJsonWS ']' = false := by decide
              rw [hpr]
              simp [parseArrItems, skipWS, harr0, h1]
          | cons y r2 =>
              have hszs : pvNeed x < fuel ∧ paNeed (JArr.cons y r2) < fuel := by
                simp only [paNeed] at hsz ⊢; omega
              have h1 := parse_print fuel x
                (',' :: (printJArr (JArr.cons y r2) ++ ']' :: ys)) hwfx.1
                (head_cons_nondigit ',' (by decide) _) hszs.1
              have h2 := parse_print_arr fuel (JArr.cons y r2) ys hwfx.2
                (by simp) hszs.2
              have hpr : printJArr (JArr.cons x (JArr.cons y r2)) ++ ']' :: ys =
                  printJVal x ++ (',' :: (printJArr (JArr.cons y r2) ++ ']' :: ys)) := by
                simp [printJArr]
              have hcm0 : isJsonWS ',' = false := by decide
              rw [hpr]
              simp [parseArrItems, skipWS, hcm0, h1, h2]

theorem parse_print_obj : ∀ (fuel : Nat) (kvs : JObj) (ys : List Char),
    wfJObj kvs = true → kvs ≠ JObj.nil → poNeed kvs < fuel →
    parseObjItems fuel (printJObj kvs ++ rbrace :: ys) = some (kvs, ys)
  | 0, kvs, ys => by intro _ _ h; omega
  | Nat.succ fuel, kvs, ys => by
      intro hwf hne hsz
      cases kvs with
      | nil => exact absurd rfl hne
      | cons k v rest =>
          have hw3 : wfStr k = true ∧ wfJVal v = true ∧ wfJObj rest = true := by
            simpa [wfJObj, Bool.and_eq_true, and_assoc] using hwf
          have hketa : String.mk k.data = k := rfl
          have hrb0 : isJsonWS rbrace = false := by decide
          have hrb1 : ¬(rbrace = ',') := by decide
          cases rest with
          | nil =>
              have hszv : pvNeed v < fuel := by
                simp only [poNeed] at hsz; omega
              have h1 := parse_print fuel v (rbrace :: ys) hw3.2.1
                (head_cons_nondigit rbrace (by decide) ys) hszv
              have hpr : printJObj (JObj.cons k v JObj.nil) ++ rbrace :: ys =
                  '"' :: (k.data ++ '"' :: ':' :: (printJVal v ++ rbrace :: ys)) := by
                simp [printJObj]
              rw [hpr]
              have hps := parseStrChars_rt k.data
                (':' :: (printJVal v ++ rbrace :: ys))
                (by simpa [wfStr] using hw3.1)
              have hq0 : isJsonWS '"' = false := by decide
              have hc0 : isJsonWS ':' = false := by decide
              simp [parseObjItems, skipWS, hq0, hc0, hps, h1, hketa, hrb0, hrb1]
          | cons k2 v2 r2 =>
              have hszs : pvNeed v < fuel ∧ poNeed (JObj.cons k2 v2 r2) < fuel := by
                simp only [poNeed] at hsz ⊢; omega
              have h2 := parse_print_obj fuel (JObj.cons k2 v2 r2) ys hw3.2.2
                (by simp) hszs.2
              have h1 := parse_print fuel v
                (',' :: (printJObj (JObj.cons k2 v2 r2) ++ rbrace :: ys)) hw3.2.1
                (head_cons_nondigit ',' (by decide) _) hszs.1
              have hpr : printJObj (JObj.cons k v (JObj.cons k2 v2 r2)) ++
                  rbrace :: ys =
                  '"' :: (k.data ++ '"' :: ':' :: (printJVal v ++ ',' ::
                    (printJObj (JObj.cons k2 v2 r2) ++ rbrace :: ys))) := by
                simp [printJObj]
              rw [hpr]
              have hps := parseStrChars_rt k.data
                (':' :: (printJVal v ++ ',' ::
                  (printJObj (JObj.cons k2 v2 r2) ++ rbrace :: ys)))
                (by simpa [wfStr] using hw3.1)
              have hq0 : isJsonWS '"' = false := by decide
              have hc0 : isJsonWS ':' = false := by decide
              have hcm0 : isJsonWS ',' = false := by decide
              simp [parseObjItems, skipWS, hq0, hc0, hcm0, hps, h1, h2, hketa,
                hrb0, hrb1]

end

/-- `json.loads` inverts serialization on well-formed values. -/
theorem json_loads_dumps (v : JVal) (hwf : wfJVal v = true) :
    json_loads (json_dumps v) = Except.ok v := by
  have hle := pvNeed_le v
  have h1 := parse_print ((printJVal v).length + 1) v [] hwf
    (by intro c hc; simp at hc) (by omega)
  simp only [json_loads, json_dumps]
  rw [show printJVal v ++ ([] : List Char) = printJVal v from by simp] at h1
  rw [h1]
  rfl

/-- Claim C4: round-trip law.  For every supported tool type (a member of
the discriminant tool-model list) and every valid tool-call payload — a
well-formed JSON object that validates against the compiled `NextStepTools`
wire model and whose `function` entry is a valid dump of that tool's
model — JSON-decoding the JSON-encoding of the payload returns the payload
itself, the compiled schema's transform maps it to itself, and Pydantic
validation accepts it: the typed tool call is reproduced field-for-field. -/
theorem C4_round_trip (m : MModel) (hm : m ∈ allDiscToolModels)
    (v : JVal) (kvs : JObj) (hv : v = JVal.obj kvs)
    (hfun : ∃ fv, JObj.get kvs "function" = some fv ∧ checkModelDump m fv = true)
    (hwf : wfJVal v = true)
    (hdump : checkModelDump (NextStepToolsModel allDiscToolModels) v = true) :
    json_loads (json_dumps v) = Except.ok v ∧
    transform_model (NextStepToolsModel allDiscToolModels) v = Except.ok v ∧
    model_validate (NextStepToolsModel allDiscToolModels) v = Except.ok v := by
  refine ⟨json_loads_dumps v hwf, ?_, ?_⟩
  · have hgood : goodModel (NextStepToolsModel allDiscToolModels) = true := by decide
    exact transformModelF_rt
      (modelSize (NextStepToolsModel allDiscToolModels) + jvalSize v + 1)
      (NextStepToolsModel allDiscToolModels) v hgood hdump
  · simp [model_validate, hdump]

/-- Witness for C4: the concrete web-search payload round-trips. -/
theorem C4_witness :
    WebSearchToolD ∈ allDiscToolModels ∧
    (∃ fv, JObj.get c4Payload "function" = some fv ∧
      checkModelDump WebSearchToolD fv = true) ∧
    wfJVal (JVal.obj c4Payload) = true ∧
    checkModelDump (NextStepToolsModel allDiscToolModels) (JVal.obj c4Payload) = true ∧
    (json_loads (json_dumps (JVal.obj c4Payload)) = Except.ok (JVal.obj c4Payload) ∧
     transform_model (NextStepToolsModel allDiscToolModels) (JVal.obj c4Payload) =
       Except.ok (JVal.obj c4Payload) ∧
     model_validate (NextStepToolsModel allDiscToolModels) (JVal.obj c4Payload) =
       Except.ok (JVal.obj c4Payload)) :=
  ⟨by decide, ⟨JVal.obj c4PayloadFn, by decide, by decide⟩, by decide, by decide,
   C4_round_trip WebSearchToolD (by decide) (JVal.obj c4Payload) c4Payload rfl
     ⟨JVal.obj c4PayloadFn, by decide, by decide⟩ (by decide) (by decide)⟩

/-- Claim C5: in the default (native) structured-output mode the stages
are attempted in the exact order native parse, JSON-Schema-constrained
decoding, unconstrained JSON mode; success at a stage logs an info entry
and returns immediately; a Structured-Output failure at a stage logs the
stage name, schema name and failure reason and advances to the next
stage; and when every stage fails, exactly one aggregated
structured-output error is raised carrying the last failure. -/
theorem C5_fallback_staging (env : MistralEnv) (sn : String)
    (hmode : env.so_mode = "native") :
    resolve_stage_order env.so_mode = ["native", "json_schema", "json_mode"] ∧
    (∀ v, env.parseRes = Except.ok v →
      complete_structured env sn =
        (Except.ok v,
         [LogEntry.mk "native" sn "info" "Mistral parse successful" none])) ∧
    (∀ m1 c v, env.parseRes = Except.error (LLMErr.structuredOutput m1) →
      env.compileRes = Except.ok c → env.jsonSchemaRes c = Except.ok v →
      complete_structured env sn =
        (Except.ok v,
         [LogEntry.mk "native" sn "warning" "Structured output stage failed"
            (some m1),
          LogEntry.mk "json_schema" sn "info" "Mistral JSON schema successful"
            none])) ∧
    (∀ m1 m2 c v, env.parseRes = Except.error (LLMErr.structuredOutput m1) →
      env.compileRes = Except.ok c →
      env.jsonSchemaRes c = Except.error (LLMErr.structuredOutput m2) →
      env.jsonModeRes (some c) = Except.ok v →
      complete_structured env sn =
        (Except.ok v,
         [LogEntry.mk "native" sn "warning" "Structured output stage failed"
            (some m1),
          LogEntry.mk "json_schema" sn "warning" "Structured output stage failed"
            (some m2),
          LogEntry.mk "json_mode" sn "info" "Mistral json_mode successful" none])) ∧
    (∀ m1 m2 m3 c, env.parseRes = Except.error (LLMErr.structuredOutput m1) →
      env.compileRes = Except.ok c →
      env.jsonSchemaRes c = Except.error (LLMErr.structuredOutput m2) →
      env.jsonModeRes (some c) = Except.error (LLMErr.structuredOutput m3) →
      complete_structured env sn =
        (Except.error (LLMErr.structuredOutput
           ("Mistral structured output failed after retries: " ++ m3)),
         [LogEntry.mk "native" sn "warning" "Structured output stage failed"
            (some m1),
          LogEntry.mk "json_schema" sn "warning" "Structured output stage failed"
            (some m2),
          LogEntry.mk "json_mode" sn "warning" "Structured output stage failed"
            (some m3)])) := by
  have hord : resolve_stage_order "native" = ["native", "json_schema", "json_mode"] :=
    rfl
  refine ⟨by rw [hmode]; exact hord, ?_, ?_, ?_, ?_⟩
  · intro v hp
    simp [complete_structured, hmode, hord, completeStructuredGo, stageBody, hp,
      successMsg]
  · intro m1 c v hp hc hjs
    simp [complete_structured, hmode, hord, completeStructuredGo, stageBody, hp,
      hc, hjs, successMsg]
  · intro m1 m2 c v hp hc hjs hjm
    simp [complete_structured, hmode, hord, completeStructuredGo, stageBody, hp,
      hc, hjs, hjm, successMsg]
  · intro m1 m2 m3 c hp hc hjs hjm
    simp [complete_structured, hmode, hord, completeStructuredGo, stageBody, hp,
      hc, hjs, hjm, successMsg, LLMErr.msg]

/-- Witness for C5: an environment in which all three stages fail yields
the single aggregated error and the three warning logs. -/
theorem C5_witness :
    c5Env.so_mode = "native" ∧
    complete_structured c5Env "NextStep" =
      (Except.error (LLMErr.structuredOutput
         "Mistral structured output failed after retries: mode refused"),
       [LogEntry.mk "native" "NextStep" "warning" "Structured output stage failed"
          (some "parse refused"),
        LogEntry.mk "json_schema" "NextStep" "warning"
          "Structured output stage failed" (some "schema refused"),
        LogEntry.mk "json_mode" "NextStep" "warning"
          "Structured output stage failed" (some "mode refused")]) :=
  ⟨rfl, (C5_fallback_staging c5Env "NextStep" rfl).2.2.2.2 "parse refused"
     "schema refused" "mode refused" JVal.null rfl rfl rfl rfl⟩

theorem dropWhile_head_false (p : Char → Bool) (c : Char) (cs : List Char)
    (h : p c = false) : List.dropWhile p (c :: cs) = c :: cs := by
  simp [List.dropWhile, h]

theorem findIdx_append_skip : ∀ (xs ys : List Char) (t : Char),
    (∀ c, c ∈ xs → ¬(c = t)) →
    findIdx (xs ++ ys) t = (findIdx ys t).map (fun i => i + xs.length)
  | [], ys, t, _ => by
      cases hf : findIdx ys t <;> simp [hf]
  | x :: xs, ys, t, h => by
      have hx : ¬(x = t) := h x (List.mem_cons_self _ _)
      have ih := findIdx_append_skip xs ys t
        (fun c hc => h c (List.mem_cons_of_mem _ hc))
      cases hf : findIdx ys t with
      | none => simp [findIdx, hx, ih, hf]
      | some i =>
          simp [findIdx, hx, ih, hf]
          omega

theorem take_len_append : ∀ (xs ys : List Char), (xs ++ ys).take xs.length = xs
  | [], _ => rfl
  | x :: xs, ys => by simp [take_len_append xs ys]

theorem json_loads_result (s : String) (v : JVal) (rest : List Char)
    (h : parseVal (s.data.length + 1) s.data = some (v, rest)) :
    json_loads s = (if (skipWS rest).isEmpty then Except.ok v
      else Except.error "Extra data") := by
  simp only [json_loads, h]

/-- A serialized object followed by non-whitespace prose without closing
braces: direct `json.loads` rejects the trailing prose, and
`soft_json_parse` extracts exactly the serialized object and succeeds. -/
theorem trailing_prose_parse (kvs : JObj) (prose : String)
    (hwf : wfJVal (JVal.obj kvs) = true)
    (hne : prose.data ≠ [])
    (hpr : ∀ c, c ∈ prose.data → isJsonWS c = false ∧ (c = rbrace : Bool) = false ∧
      c.isDigit = false) :
    json_loads (String.mk (printJVal (JVal.obj kvs) ++ prose.data)) =
      Except.error "Extra data" ∧
    soft_json_parse (String.mk (printJVal (JVal.obj kvs) ++ prose.data)) =
      Except.ok (JVal.obj kvs) := by
  have hPhead : printJVal (JVal.obj kvs) = lbrace :: (printJObj kvs ++ [rbrace]) :=
    rfl
  have hlb : isJsonWS lbrace = false := by decide
  -- the strip is the identity
  have hstrip : pystrip (String.mk (printJVal (JVal.obj kvs) ++ prose.data)) =
      String.mk (printJVal (JVal.obj kvs) ++ prose.data) := by
    simp only [pystrip]
    congr 1
    have h1 : (printJVal (JVal.obj kvs) ++ prose.data).dropWhile isJsonWS =
        printJVal (JVal.obj kvs) ++ prose.data := by
      rw [hPhead, List.cons_append]
      exact dropWhile_head_false isJsonWS lbrace _ hlb
    have h2 : (printJVal (JVal.obj kvs) ++ prose.data).reverse.dropWhile isJsonWS =
        (printJVal (JVal.obj kvs) ++ prose.data).reverse := by
      rw [List.reverse_append]
      cases hpd : prose.data.reverse with
      | nil =>
          exfalso
          apply hne
          have h3 := congrArg List.reverse hpd
          simpa using h3
      | cons c0 r0 =>
          have hc0 : c0 ∈ prose.data := by
            have h4 : c0 ∈ prose.data.reverse := by
              rw [hpd]; exact List.mem_cons_self _ _
            simpa using h4
          rw [List.cons_append]
          exact dropWhile_head_false isJsonWS c0 _ ((hpr c0 hc0).1)
    rw [h1, h2, List.reverse_reverse]
  -- the direct load rejects the prose
  have hys : ∀ c, prose.data.head? = some c → c.isDigit = false := by
    intro c hc
    cases hpd : prose.data with
    | nil => rw [hpd] at hc; simp at hc
    | cons c0 r0 =>
        rw [hpd] at hc
        simp only [List.head?_cons, Option.some.injEq] at hc
        rw [← hc]
        exact (hpr c0 (by rw [hpd]; exact List.mem_cons_self _ _)).2.2
  have hle := pvNeed_le (JVal.obj kvs)
  have hparse := parse_print ((printJVal (JVal.obj kvs) ++ prose.data).length + 1)
    (JVal.obj kvs) prose.data hwf hys
    (by simp only [List.length_append]; omega)
  have hload1 : json_loads (String.mk (printJVal (JVal.obj kvs) ++ prose.data)) =
      Except.error "Extra data" := by
    rw [json_loads_result (String.mk (printJVal (JVal.obj kvs) ++ prose.data))
      (JVal.obj kvs) prose.data hparse]
    cases hpd : prose.data with
    | nil => exact absurd hpd hne
    | cons c0 r0 =>
        rw [skipWS_cons c0 r0
          ((hpr c0 (by rw [hpd]; exact List.mem_cons_self _ _)).1)]
        rfl
  refine ⟨hload1, ?_⟩
  -- the extraction finds the serialized object exactly
  have hfind : findIdx (printJVal (JVal.obj kvs) ++ prose.data) lbrace = some 0 := by
    rw [hPhead, List.cons_append]
    simp [findIdx]
  have hprb : ∀ c, c ∈ prose.data.reverse → ¬(c = rbrace) := by
    intro c hc
    have hm : c ∈ prose.data := by simpa using hc
    have h5 := (hpr c hm).2.1
    simpa [decide_eq_false_iff_not] using h5
  have hrfind : rfindIdx (printJVal (JVal.obj kvs) ++ prose.data) rbrace =
      some ((printJVal (JVal.obj kvs)).length - 1) := by
    simp only [rfindIdx]
    rw [List.reverse_append]
    have hPrev : (printJVal (JVal.obj kvs)).reverse =
        rbrace :: ((printJObj kvs).reverse ++ [lbrace]) := by
      rw [hPhead]; simp
    rw [hPrev, findIdx_append_skip prose.data.reverse _ rbrace hprb]
    have hfr : findIdx (rbrace :: ((printJObj kvs).reverse ++ [lbrace])) rbrace =
        some 0 := by
      simp [findIdx]
    rw [hfr]
    simp only [Option.map, List.length_append, List.length_reverse]
    congr 1
    have h7 : 1 ≤ (printJVal (JVal.obj kvs)).length := by
      rw [hPhead]
      simp only [List.length_cons]
      omega
    omega
  have hP2 : 2 ≤ (printJVal (JVal.obj kvs)).length := by
    rw [hPhead]
    simp only [List.length_cons, List.length_append, List.length_singleton]
    omega
  have hlt : 0 < (printJVal (JVal.obj kvs)).length - 1 := by omega
  have hslice : sliceChars (printJVal (JVal.obj kvs) ++ prose.data) 0
      ((printJVal (JVal.obj kvs)).length - 1 + 1) = printJVal (JVal.obj kvs) := by
    simp only [sliceChars, List.drop_zero, Nat.sub_zero]
    have h6 : (printJVal (JVal.obj kvs)).length - 1 + 1 =
        (printJVal (JVal.obj kvs)).length := by omega
    rw [h6]
    exact take_len_append _ _
  have hemp : (printJVal (JVal.obj kvs) ++ prose.data).isEmpty = false := by
    rw [hPhead, List.cons_append]; rfl
  have hok := json_loads_dumps (JVal.obj kvs) hwf
  simp only [soft_json_parse, hstrip]
  simp [hemp, hload1, hfind, hrfind, hlt, hslice, json_dumps] at hok ⊢
  simp [hok]

/-- Claim C10 (amended): when native parse fails with a Structured-Output
error and schema compilation fails with Schema-Too-Complex (so the
JSON-Schema stage fails and the json_mode stage runs uncompiled), and the
json_mode response is a serialized JSON object followed by trailing
non-whitespace prose that contains no closing brace and does not start
with a digit, the pipeline extracts the outermost brace span, validates
the embedded object and returns the correct typed result; the staging
loop returns it with the stage/schema/reason warnings logged.  (With
arbitrary prose the extraction can fail — see the counterexample.) -/
theorem C10_jsonmode_trailing_prose
    (m : MModel) (kvs : JObj) (prose : String)
    (hwf : wfJVal (JVal.obj kvs) = true)
    (hck : checkModelDump m (JVal.obj kvs) = true)
    (hne : prose.data ≠ [])
    (hpr : ∀ c, c ∈ prose.data → isJsonWS c = false ∧ (c = rbrace : Bool) = false ∧
      c.isDigit = false)
    (env : MistralEnv) (sn : String) (m1 m2 : String)
    (hmode : env.so_mode = "native")
    (hp : env.parseRes = Except.error (LLMErr.structuredOutput m1))
    (hc : env.compileRes = Except.error (LLMErr.schemaTooComplex m2))
    (hjm : env.jsonModeRes none = Except.ok (JVal.obj kvs)) :
    soft_json_parse (String.mk (printJVal (JVal.obj kvs) ++ prose.data)) =
      Except.ok (JVal.obj kvs) ∧
    call_json_mode_process none m
      (String.mk (printJVal (JVal.obj kvs) ++ prose.data)) =
      Except.ok (Except.ok (JVal.obj kvs)) ∧
    complete_structured env sn =
      (Except.ok (JVal.obj kvs),
       [LogEntry.mk "native" sn "warning" "Structured output stage failed" (some m1),
        LogEntry.mk "json_schema" sn "warning"
          "Schema compilation failed, retrying with fallback" (some m2),
        LogEntry.mk "json_mode" sn "warning"
          "Schema too complex for structured compilation; falling back to raw json_mode"
          (some m2),
        LogEntry.mk "json_mode" sn "info" "Mistral json_mode successful" none]) := by
  rcases trailing_prose_parse kvs prose hwf hne hpr with ⟨hl, hs⟩
  have hord : resolve_stage_order "native" = ["native", "json_schema", "json_mode"] :=
    rfl
  refine ⟨hs, ?_, ?_⟩
  · simp [call_json_mode_process, hl, hs, isObj, model_validate, hck]
  · simp [complete_structured, hmode, hord, completeStructuredGo, stageBody, hp,
      hc, hjm, successMsg]

/-- Claim C10, counterexample: trailing prose containing a closing brace
defeats the first-brace/last-brace extraction — the sliced candidate still
carries the prose up to that brace, its re-parse fails, the original
"Extra data" error is re-raised, and json_mode reports a parse failure
instead of the typed result. -/
theorem C10_counterexample :
    wfJVal c10Val = true ∧
    checkModelDump c10Model c10Val = true ∧
    soft_json_parse (String.mk (printJVal c10Val ++ " note\x7d".data)) =
      Except.error "Extra data" ∧
    call_json_mode_process none c10Model
      (String.mk (printJVal c10Val ++ " note\x7d".data)) =
      Except.ok (Except.error (LLMErr.structuredOutput
        "Mistral json_mode response failed to parse")) :=
  ⟨by decide, by decide, by decide, by decide⟩

/-- Witness for C10 (amended) at a concrete tiny model, payload and
environment, with prose "ok". -/
theorem C10_witness :
    soft_json_parse (String.mk (printJVal (JVal.obj (JObj.ofList
      [("a", JVal.str "b")])) ++ "ok".data)) =
      Except.ok (JVal.obj (JObj.ofList [("a", JVal.str "b")])) ∧
    call_json_mode_process none c10Model (String.mk (printJVal (JVal.obj
      (JObj.ofList [("a", JVal.str "b")])) ++ "ok".data)) =
      Except.ok (Except.ok (JVal.obj (JObj.ofList [("a", JVal.str "b")]))) ∧
    complete_structured c10Env "NextStep" =
      (Except.ok (JVal.obj (JObj.ofList [("a", JVal.str "b")])),
       [LogEntry.mk "native" "NextStep" "warning" "Structured output stage failed"
          (some "parse refused"),
        LogEntry.mk "json_schema" "NextStep" "warning"
          "Schema compilation failed, retrying with fallback" (some "map field"),
        LogEntry.mk "json_mode" "NextStep" "warning"
          "Schema too complex for structured compilation; falling back to raw json_mode"
          (some "map field"),
        LogEntry.mk "json_mode" "NextStep" "info" "Mistral json_mode successful"
          none]) :=
  C10_jsonmode_trailing_prose c10Model (JObj.ofList [("a", JVal.str "b")]) "ok"
    (by decide) (by decide) (by decide) (by decide)
    c10Env "NextStep" "parse refused" "map field" rfl rfl rfl rfl

end SGR
